import Mathlib

/-!
Verification of the variable layer-height slicing core
(`xs/src/libslic3r/Slicing.cpp`).

The C++ code is shallowly embedded over `ℚ` (the source uses `double`;
all claims considered here are about the exact arithmetic structure of the
algorithms, so rationals are used with explicit transcendental functions —
`cos` — passed as oracle parameters).  Loops are embedded with explicit
fuel and return `Option`, so that a run that would not terminate, or that
would access a vector out of bounds in the C++ (undefined behaviour),
evaluates to `none`.
-/

set_option maxHeartbeats 1000000
set_option maxRecDepth 4000

namespace Slic3r

/-- `EPSILON` from `libslic3r.h`: scalar coordinate tolerance, `1e-4`. -/
def EPSILON : ℚ := 1 / 10000

/-- `lerp` from `libslic3r.h`: `(1 - t) * a + t * b`. -/
def lerp (a b t : ℚ) : ℚ := (1 - t) * a + t * b

/-- `clamp` from `libslic3r.h`: `std::max(low, std::min(high, value))`. -/
def clamp (lo hi x : ℚ) : ℚ := max lo (min hi x)

/-- The fields of `SlicingParameters` (declared in `Slicing.hpp`) that the
functions of `Slicing.cpp` read.  Raft layer counts are naturals; all
lengths are rationals. -/
structure SlicingParameters where
  layer_height : ℚ
  min_layer_height : ℚ
  max_layer_height : ℚ
  first_print_layer_height : ℚ
  first_object_layer_height : ℚ
  base_raft_layers : ℕ
  interface_raft_layers : ℕ
  object_print_z_min : ℚ
  object_print_z_max : ℚ

namespace SlicingParameters

/-- Modelled from the spec: `object_print_z_height = max − min`
(accessor declared in `Slicing.hpp`, which is not part of the sources). -/
def object_print_z_height (p : SlicingParameters) : ℚ :=
  p.object_print_z_max - p.object_print_z_min

/-- Modelled from the spec: `has_raft() = base_raft_layers + interface_raft_layers > 0`
(accessor declared in `Slicing.hpp`, which is not part of the sources). -/
def has_raft (p : SlicingParameters) : Bool :=
  decide (0 < p.base_raft_layers + p.interface_raft_layers)

/-- Modelled from the spec:
`first_object_layer_height_fixed() = has_raft() ∨ first_print_layer_height ≠ layer_height`
(accessor declared in `Slicing.hpp`, which is not part of the sources). -/
def first_object_layer_height_fixed (p : SlicingParameters) : Bool :=
  p.has_raft || decide (p.first_print_layer_height ≠ p.layer_height)

end SlicingParameters

/-- `LayerHeightEditActionType` (`Slicing.hpp`): the four profile edit actions. -/
inductive LayerHeightEditActionType where
  | Increase
  | Decrease
  | Reduce
  | Smooth
deriving DecidableEq

/-- The height entries of a flat profile `[z₀, h₀, z₁, h₁, …]`:
the elements at odd positions. -/
def heightsOf : List ℚ → List ℚ
  | _ :: h :: rest => h :: heightsOf rest
  | _ => []

/-- The Z entries of a flat profile `[z₀, h₀, z₁, h₁, …]`:
the elements at even positions. -/
def zsOf : List ℚ → List ℚ
  | z :: _ :: rest => z :: zsOf rest
  | _ => []

/-- Heights of a profile all lie strictly within `(lo, hi)` (the §3
validity band is `(min_layer_height − EPSILON, max_layer_height + EPSILON)`). -/
def heightsWithin (lo hi : ℚ) (l : List ℚ) : Prop :=
  ∀ x ∈ heightsOf l, lo < x ∧ x < hi

/-! ## `layer_height_profile_from_ranges` (`Slicing.cpp` lines 157–215) -/

/-- Step 1 of `layer_height_profile_from_ranges`: trim the user ranges so
that they do not overlap, inserting the fixed first layer first.  A range
is a pair `((lo, hi), height)`; the input list is assumed in the map's
lexicographic order. -/
def trim_ranges (params : SlicingParameters)
    (layer_height_ranges : List ((ℚ × ℚ) × ℚ)) : List ((ℚ × ℚ) × ℚ) :=
  let init : List ((ℚ × ℚ) × ℚ) :=
    if params.first_object_layer_height_fixed then
      [((0, params.first_object_layer_height), params.first_object_layer_height)]
    else []
  layer_height_ranges.foldl
    (fun acc r =>
      let lo0 := r.1.1
      let hi := min r.1.2 params.object_print_z_height
      let height := r.2
      let lo := match acc.getLast? with
        | some prev => max lo0 prev.1.2
        | none => lo0
      if lo + EPSILON < hi then acc ++ [((lo, hi), height)] else acc)
    init

/-- Step 2 of `layer_height_profile_from_ranges`: convert the trimmed
ranges to a flat profile, filling gaps with the nominal layer height. -/
def profile_of_trimmed (params : SlicingParameters)
    (trimmed : List ((ℚ × ℚ) × ℚ)) : List ℚ :=
  let body := trimmed.foldl
    (fun prof r =>
      let lo := r.1.1
      let hi := r.1.2
      let height := r.2
      let last_z := if prof.isEmpty then 0 else prof.getD (prof.length - 2) 0
      let prof :=
        if lo > last_z + EPSILON then
          prof ++ [last_z, params.layer_height, lo, params.layer_height]
        else prof
      prof ++ [lo, height, hi, height])
    []
  let last_z := if body.isEmpty then 0 else body.getD (body.length - 2) 0
  if last_z < params.object_print_z_height then
    body ++ [last_z, params.layer_height,
             params.object_print_z_height, params.layer_height]
  else body

/-- `layer_height_profile_from_ranges` (`Slicing.cpp` lines 157–215). -/
def layer_height_profile_from_ranges (params : SlicingParameters)
    (layer_height_ranges : List ((ℚ × ℚ) × ℚ)) : List ℚ :=
  profile_of_trimmed params (trim_ranges params layer_height_ranges)

/-! ## `layer_height_profile_adaptive` (`Slicing.cpp` lines 219–310)

The `SlicingAdaptive` mesh oracle lives outside `Slicing.cpp`; it is
embedded as a sequence `oracle : ℕ → ℚ` giving the value returned by the
`k`-th call of `as.cusp_height(...)` (the mutable `current_facet` hint is
part of that abstraction). -/

/-- The main loop of `layer_height_profile_adaptive` (lines 249–301):
while `slice_z − height ≤ object_print_z_height`, query the oracle, cap
the value at the initial `height = 999`, append the layer, and advance.
Returns the appended entries and the final `slice_z`; `none` when the
fuel runs out (non-terminating C++ loop). -/
def adaptiveLoop (objectH : ℚ) (oracle : ℕ → ℚ) :
    ℕ → ℕ → ℚ → ℚ → Option (List ℚ × ℚ)
  | 0, _, _, _ => none
  | fuel + 1, k, slice_z, height =>
    if slice_z - height ≤ objectH then
      let h := min (oracle k) 999
      match adaptiveLoop objectH oracle fuel (k + 1) (slice_z + h) h with
      | none => none
      | some (rest, zfin) => some (slice_z :: h :: (slice_z + h) :: h :: rest, zfin)
    else
      some ([], slice_z)

/-- `layer_height_profile_adaptive` (`Slicing.cpp` lines 219–310). -/
def layer_height_profile_adaptive (params : SlicingParameters)
    (oracle : ℕ → ℚ) (fuel : ℕ) : Option (List ℚ) :=
  let foh := params.first_object_layer_height
  let base : List ℚ :=
    [0, foh] ++ (if params.first_object_layer_height_fixed then [foh, foh] else [])
  match adaptiveLoop params.object_print_z_height oracle fuel 0 foh foh with
  | none => none
  | some (loopOut, _) =>
    let p := base ++ loopOut
    let last := max foh (p.getD (p.length - 2) 0)
    some (p ++ [last, foh, params.object_print_z_height, foh])

/-! ## `adjust_layer_height_profile` (`Slicing.cpp` lines 312–500)

`cos` appears in the cosine window weights; it is embedded as an oracle
`cosf : ℚ → ℚ` where `cosf x` stands for `cos (2π x)` (the source always
calls `cos(2. * M_PI * (zz - z) / band_width)`).  The bound
`|cosf x| ≤ 1` is taken as a hypothesis where needed. -/

/-- The profile sampling loop of `adjust_layer_height_profile`
(lines 332–345): find the segment containing `z` and interpolate.
`i` steps by 2; the fuel is bounded by the list length. -/
def sampleLoop (nominal : ℚ) (p : List ℚ) (z : ℚ) : ℕ → ℕ → ℚ
  | 0, _ => nominal
  | fuel + 1, i =>
    if i < p.length then
      if i + 2 = p.length then p.getD (i + 1) 0
      else if p.getD (i + 2) 0 > z then
        let z1 := p.getD i 0
        let h1 := p.getD (i + 1) 0
        let z2 := p.getD (i + 2) 0
        let h2 := p.getD (i + 3) 0
        lerp h1 h2 ((z - z1) / (z2 - z1))
      else sampleLoop nominal p z fuel (i + 2)
    else nominal

/-- Sample the current layer height of a profile at `z`
(`adjust_layer_height_profile`, step 1). -/
def sampleHeight (nominal : ℚ) (p : List ℚ) (z : ℚ) : ℚ :=
  sampleLoop nominal p z (p.length + 1) 0

/-- The index seek loops of `adjust_layer_height_profile`
(lines 381–382 and 448–449): advance `idx` by 2 while
`idx < size ∧ profile[idx] < bound`.  The fuel is the list length. -/
def seekLoop (p : List ℚ) (bound : ℚ) : ℕ → ℕ → ℕ
  | 0, idx => idx
  | fuel + 1, idx =>
    if idx < p.length ∧ p.getD idx 0 < bound then seekLoop p bound fuel (idx + 2)
    else idx

/-- Step 2 of `adjust_layer_height_profile` (lines 347–373): clamp the
effective delta per action; `none` encodes the early `return` (no-op). -/
def clampDelta (params : SlicingParameters) (action : LayerHeightEditActionType)
    (delta current : ℚ) : Option ℚ :=
  match action with
  | .Increase =>
    if delta > 0 then
      if current ≥ params.max_layer_height - EPSILON then none
      else some (min delta (params.max_layer_height - current))
    else
      if current ≤ params.min_layer_height + EPSILON then none
      else some (max delta (params.min_layer_height - current))
  | .Decrease =>
    let delta := -delta
    if delta > 0 then
      if current ≥ params.max_layer_height - EPSILON then none
      else some (min delta (params.max_layer_height - current))
    else
      if current ≤ params.min_layer_height + EPSILON then none
      else some (max delta (params.min_layer_height - current))
  | .Reduce | .Smooth =>
    let d := min |delta| |params.layer_height - current|
    if d < EPSILON then none else some d

/-- The height computed for one resampled point (lines 393–428 of
`adjust_layer_height_profile`): sample the old profile at `zz` from the
cursor `idx`, adjust by the cosine-weighted delta per action, and clamp
into `[min_layer_height, max_layer_height]`. -/
def resampleHeight (params : SlicingParameters) (cosf : ℚ → ℚ)
    (action : LayerHeightEditActionType) (delta z band_width : ℚ)
    (old : List ℚ) (zz : ℚ) (idx : ℕ) : ℚ :=
  let z1 := old.getD idx 0
  let h1 := old.getD (idx + 1) 0
  let next := idx + 2
  let height :=
    if next < old.length then
      lerp h1 (old.getD (next + 1) 0) ((zz - z1) / (old.getD next 0 - z1))
    else h1
  let weight :=
    if |zz - z| < band_width / 2 then
      1/2 + 1/2 * cosf ((zz - z) / band_width)
    else 0
  let height :=
    match action with
    | .Increase | .Decrease => height + weight * delta
    | .Reduce =>
      let d := height - params.layer_height
      let step := weight * delta
      height + (if |d| > step then (if d > 0 then -step else step) else -d)
    | .Smooth => height
  clamp params.min_layer_height params.max_layer_height height

/-- The resampling loop of `adjust_layer_height_profile` (lines 389–451).
State: `zz`, the profile cursor `idx`, the new profile `acc`.  Returns
`(acc, idx)` at loop exit (on the `break` of line 438 the C++ has set
`idx = layer_height_profile.size()`).  The profile reads
`layer_height_profile[idx]`, `[idx + 1]` use `getD` (they stay in bounds
whenever the loop is entered with `idx ≤ size − 2`, which
`adjust_layer_height_profile` guarantees once the initial seek did not
underflow); `none` models fuel exhaustion and the C++ out-of-bounds
accesses (the `idx -= 2` underflow of the seek loops and the
`profile_new[size-2]` reads with fewer than two elements). -/
def resampleLoop (params : SlicingParameters) (cosf : ℚ → ℚ)
    (action : LayerHeightEditActionType) (delta z band_width hi zSpanHi : ℚ)
    (old : List ℚ) : ℕ → ℚ → ℕ → List ℚ → Option (List ℚ × ℕ)
  | 0, _, _, _ => none
  | fuel + 1, zz, idx, acc =>
    if zz < hi then
      let height := resampleHeight params cosf action delta z band_width old zz idx
      if 2 ≤ acc.length then
        let accLast := acc.getD (acc.length - 2) 0
        if zz = zSpanHi then
          let acc := if accLast + EPSILON > zz then acc.dropLast.dropLast else acc
          some (acc ++ [zz, height], old.length)
        else
          let acc := if accLast + EPSILON < zz then acc ++ [zz, height] else acc
          let zz' := min (zz + 1/10) zSpanHi
          let idx' := seekLoop old zz' (old.length + 1) (idx + 2)
          if idx' < 2 then none
          else resampleLoop params cosf action delta z band_width hi zSpanHi old
                 fuel zz' (idx' - 2) acc
      else none
    else
      some (acc, idx)

/-- The averaged height written for one resampled point of the `Smooth`
pass (lines 475–483): a `(1 − t)`-weighted mix of the point's height with
its neighbours', with one-sided mixes at the two ends. -/
def smoothNewHeight (cosf : ℚ → ℚ) (z band_width : ℚ) (snap : List ℚ)
    (i : ℕ) : ℚ :=
  let zz := snap.getD i 0
  let t :=
    if |zz - z| < band_width / 2 then 1/4 + 1/4 * cosf ((zz - z) / band_width)
    else 0
  if i = 0 then
    (1 - t) * snap.getD (i + 1) 0 + t * snap.getD (i + 3) 0
  else if i + 1 = snap.length then
    (1 - t) * snap.getD (i + 1) 0 + t * snap.getD (i - 1) 0
  else
    (1 - t) * snap.getD (i + 1) 0 +
      1/2 * t * (snap.getD (i - 1) 0 + snap.getD (i + 3) 0)

/-- One in-place averaging sweep of the `Smooth` pass
(lines 474–484).  `snap` is the snapshot `profile_new` taken at the start
of the round; writes go into `prof`. -/
def smoothOnce (cosf : ℚ → ℚ) (z band_width : ℚ) (iEnd : ℕ) (snap : List ℚ) :
    ℕ → ℕ → List ℚ → List ℚ
  | 0, _, prof => prof
  | fuel + 1, i, prof =>
    if i < iEnd then
      smoothOnce cosf z band_width iEnd snap fuel (i + 2)
        (prof.set (i + 1) (smoothNewHeight cosf z band_width snap i))
    else prof

/-- The six smoothing rounds of the `Smooth` action (lines 466–486);
each round snapshots the live profile and averages the resampled band. -/
def smoothRounds (cosf : ℚ → ℚ) (z band_width : ℚ) (iStart iEnd : ℕ) :
    ℕ → List ℚ → List ℚ
  | 0, prof => prof
  | n + 1, prof =>
    smoothRounds cosf z band_width iStart iEnd n
      (smoothOnce cosf z band_width iEnd prof (prof.length + 1) iStart prof)

/-- The `Smooth` post-pass (lines 466–486) including the index-range
fix-ups of lines 467–470. -/
def smoothPass (cosf : ℚ → ℚ) (z band_width : ℚ) (iStart iEnd : ℕ)
    (prof : List ℚ) : List ℚ :=
  let iStart := if iStart = 0 then 1 else iStart
  let iEnd := if iEnd = prof.length then iEnd - 2 else iEnd
  smoothRounds cosf z band_width iStart iEnd 6 prof

/-- `adjust_layer_height_profile` (`Slicing.cpp` lines 312–500).
Returns the new profile (`some`), or `none` on a C++ out-of-bounds access
or fuel exhaustion.  The early no-op returns yield the unchanged profile. -/
def adjust_layer_height_profile (params : SlicingParameters) (cosf : ℚ → ℚ)
    (profile : List ℚ) (z layer_thickness_delta band_width : ℚ)
    (action : LayerHeightEditActionType) (fuel : ℕ) : Option (List ℚ) :=
  let zSpanLo :=
    if params.first_object_layer_height_fixed then params.first_object_layer_height
    else 0
  let zSpanHi := params.object_print_z_height
  if z < zSpanLo ∨ z > zSpanHi then some profile
  else
    let current := sampleHeight params.layer_height profile z
    match clampDelta params action layer_thickness_delta current with
    | none => some profile
    | some delta =>
      let lo := max zSpanLo (z - 1/2 * band_width)
      let hi := z + 1/2 * band_width
      let idx0 := seekLoop profile lo (profile.length + 1) 0
      if idx0 < 2 then none
      else
        let idx := idx0 - 2
        let pre := profile.take (idx + 2)
        match resampleLoop params cosf action delta z band_width hi zSpanHi
                profile fuel lo idx pre with
        | none => none
        | some (acc, idxAfter) =>
          let iStart := pre.length
          let iEnd := acc.length
          let idx2 := idxAfter + 2
          let p1 :=
            if idx2 < profile.length then acc ++ profile.drop idx2
            else if acc.getD (acc.length - 2) 0 + EPSILON / 2 < zSpanHi then
              acc ++ profile.drop (profile.length - 2)
            else acc
          some (if action = .Smooth then smoothPass cosf z band_width iStart iEnd p1
                else p1)

/-! ## `generate_object_layers` (`Slicing.cpp` lines 503–556) -/

/-- The profile cursor seek of `generate_object_layers` (lines 526–532):
`next = idx + 2`; advance while `next < size ∧ slice_z ≥ profile[next]`. -/
def genSeek (p : List ℚ) (slice_z : ℚ) : ℕ → ℕ → ℕ
  | 0, idx => idx
  | fuel + 1, idx =>
    if idx + 2 < p.length ∧ ¬ slice_z < p.getD (idx + 2) 0 then
      genSeek p slice_z fuel (idx + 2)
    else idx

/-- The main loop of `generate_object_layers` (lines 523–552).
State: `print_z`, `slice_z`, the profile cursor, and the output so far. -/
def genLayersLoop (objectH mn : ℚ) (p : List ℚ) :
    ℕ → ℚ → ℚ → ℕ → List ℚ → Option (List ℚ)
  | 0, _, _, _, _ => none
  | fuel + 1, print_z, slice_z, idx, out =>
    if slice_z < objectH then
      let hidx :=
        if idx < p.length then
          let i2 := genSeek p slice_z (p.length + 1) idx
          let z1 := p.getD i2 0
          let h1 := p.getD (i2 + 1) 0
          let next := i2 + 2
          (if next < p.length then
             lerp h1 (p.getD (next + 1) 0) ((slice_z - z1) / (p.getD next 0 - z1))
           else h1, i2)
        else (mn, idx)
      let height := hidx.1
      let slice_z' := print_z + 1/2 * height
      if slice_z' ≥ objectH then some out
      else
        let print_z' := print_z + height
        genLayersLoop objectH mn p fuel print_z' (print_z' + 1/2 * mn) hidx.2
          (out ++ [print_z, print_z'])
    else some out

/-- `generate_object_layers` (`Slicing.cpp` lines 503–556). -/
def generate_object_layers (params : SlicingParameters)
    (layer_height_profile : List ℚ) (fuel : ℕ) : Option (List ℚ) :=
  let print_z :=
    if params.first_object_layer_height_fixed then params.first_object_layer_height
    else 0
  let out : List ℚ :=
    if params.first_object_layer_height_fixed then
      [0, params.first_object_layer_height]
    else []
  genLayersLoop params.object_print_z_height params.min_layer_height
    layer_height_profile fuel print_z (print_z + 1/2 * params.min_layer_height) 0 out

/-! ## `generate_layer_height_texture` (`Slicing.cpp` lines 558–668)

The RGBA buffer is embedded as a list of byte writes `(offset, value)`;
`cosf x` stands for `cos (π x)` (the source computes
`cos(M_PI * 0.7 * (mid - z) / h)`, embedded as `cosf (0.7 * (mid - z) / h)`).
Integer arithmetic (`rows`, `cols`, cell indices) uses `ℤ`. -/

/-- The 8-colour diverging palette (lines 564–572). -/
def palette_raw : List (ℤ × ℤ × ℤ) :=
  [(0x1A, 0x98, 0x50), (0x66, 0xBD, 0x63), (0xA6, 0xD9, 0x6A),
   (0xD9, 0xF1, 0xEB), (0xFE, 0xE6, 0xEB), (0xFD, 0xAE, 0x61),
   (0xF4, 0x6D, 0x43), (0xD7, 0x30, 0x27)]

/-- Integer clamp used by the texture generator. -/
def clampZ (lo hi x : ℤ) : ℤ := max lo (min hi x)

/-- The writes (byte offset, value) performed for one cell of the 0th LOD
level (lines 598–630): four RGBA bytes, plus the row-wrap duplicate of
lines 623–629. -/
def cellWrites (nominal hscale : ℚ) (h : ℚ) (intensity : ℚ) (cols : ℤ)
    (cell : ℤ) (base : ℤ) : List (ℤ × ℤ) :=
  let idxf := (1/2 * hscale + (h - nominal)) * ((palette_raw.length : ℚ) - 1) / hscale
  let idx1 := clampZ 0 (palette_raw.length - 1) ⌊idxf⌋
  let idx2 := min ((palette_raw.length : ℤ) - 1) (idx1 + 1)
  let t := idxf - (idx1 : ℚ)
  let c1 := palette_raw.getD idx1.toNat (0, 0, 0)
  let c2 := palette_raw.getD idx2.toNat (0, 0, 0)
  let r := intensity * lerp (c1.1 : ℚ) (c2.1 : ℚ) t
  let g := intensity * lerp (c1.2.1 : ℚ) (c2.2.1 : ℚ) t
  let b := intensity * lerp (c1.2.2 : ℚ) (c2.2.2 : ℚ) t
  let row := cell / (cols - 1)
  let col := cell - row * (cols - 1)
  let ptr := base + (row * cols + col) * 4
  let bytes := [(ptr, clampZ 0 255 ⌊r + 1/2⌋), (ptr + 1, clampZ 0 255 ⌊g + 1/2⌋),
                (ptr + 2, clampZ 0 255 ⌊b + 1/2⌋), (ptr + 3, (255 : ℤ))]
  if col = 0 ∧ row > 0 then
    bytes ++ [(ptr - 4, clampZ 0 255 ⌊r + 1/2⌋), (ptr - 3, clampZ 0 255 ⌊g + 1/2⌋),
              (ptr - 2, clampZ 0 255 ⌊b + 1/2⌋), (ptr - 1, (255 : ℤ))]
  else bytes

/-- The writes for one cell of the 2nd LOD level (lines 634–661);
no intensity modulation. -/
def cellWrites1 (nominal hscale : ℚ) (h : ℚ) (cols1 : ℤ) (cell : ℤ)
    (base : ℤ) : List (ℤ × ℤ) :=
  let idxf := (1/2 * hscale + (h - nominal)) * ((palette_raw.length : ℚ) - 1) / hscale
  let idx1 := clampZ 0 (palette_raw.length - 1) ⌊idxf⌋
  let idx2 := min ((palette_raw.length : ℤ) - 1) (idx1 + 1)
  let t := idxf - (idx1 : ℚ)
  let c1 := palette_raw.getD idx1.toNat (0, 0, 0)
  let c2 := palette_raw.getD idx2.toNat (0, 0, 0)
  let r := lerp (c1.1 : ℚ) (c2.1 : ℚ) t
  let g := lerp (c1.2.1 : ℚ) (c2.2.1 : ℚ) t
  let b := lerp (c1.2.2 : ℚ) (c2.2.2 : ℚ) t
  let row := cell / (cols1 - 1)
  let col := cell - row * (cols1 - 1)
  let ptr := base + (row * cols1 + col) * 4
  let bytes := [(ptr, clampZ 0 255 ⌊r + 1/2⌋), (ptr + 1, clampZ 0 255 ⌊g + 1/2⌋),
                (ptr + 2, clampZ 0 255 ⌊b + 1/2⌋), (ptr + 3, (255 : ℤ))]
  if col = 0 ∧ row > 0 then
    bytes ++ [(ptr - 4, clampZ 0 255 ⌊r + 1/2⌋), (ptr - 3, clampZ 0 255 ⌊g + 1/2⌋),
              (ptr - 2, clampZ 0 255 ⌊b + 1/2⌋), (ptr - 1, (255 : ℤ))]
  else bytes

/-- The range of cells `[cell_first .. cell_last]` as a list of `ℤ`. -/
def cellRange (first last : ℤ) : List ℤ :=
  (List.range (last + 1 - first).toNat).map (fun i => first + (i : ℤ))

/-- The writes performed for one layer interval (the body of the loop at
lines 589–664). -/
def layerWrites (params : SlicingParameters) (cosf : ℚ → ℚ)
    (rows cols : ℤ) (level_of_detail_2nd_level : Bool)
    (ncells ncells1 cols1 : ℤ) (z_to_cell cell_to_z z_to_cell1 hscale : ℚ)
    (lo hi : ℚ) : List (ℤ × ℤ) :=
  let mid := 1/2 * (lo + hi)
  let h := hi - lo
  let hi := min hi params.object_print_z_height
  let cell_first := clampZ 0 (ncells - 1) ⌈lo * z_to_cell⌉
  let cell_last := clampZ 0 (ncells - 1) ⌊hi * z_to_cell⌋
  let w0 := (cellRange cell_first cell_last).flatMap
    (fun cell =>
      let zc := cell_to_z * (cell : ℚ)
      let intensity := cosf (7/10 * (mid - zc) / h)
      cellWrites params.layer_height hscale h intensity cols cell 0)
  if level_of_detail_2nd_level then
    let cell_first := clampZ 0 (ncells1 - 1) ⌈lo * z_to_cell1⌉
    let cell_last := clampZ 0 (ncells1 - 1) ⌊hi * z_to_cell1⌋
    w0 ++ (cellRange cell_first cell_last).flatMap
      (fun cell => cellWrites1 params.layer_height hscale (hi - lo) cols1 cell
        (rows * cols * 4))
  else w0

/-- Pair up the flat layer list `[lo₀, hi₀, lo₁, hi₁, …]`. -/
def layerPairs : List ℚ → List (ℚ × ℚ)
  | lo :: hi :: rest => (lo, hi) :: layerPairs rest
  | _ => []

/-- `generate_layer_height_texture` (`Slicing.cpp` lines 558–668): returns
the list of byte writes and the returned cell count `ncells`
(line 578 / line 667). -/
def generate_layer_height_texture (params : SlicingParameters)
    (layers : List ℚ) (rows cols : ℤ) (level_of_detail_2nd_level : Bool)
    (cosf : ℚ → ℚ) : List (ℤ × ℤ) × ℤ :=
  let objectH := params.object_print_z_height
  let ncells : ℤ :=
    min ((cols - 1) * rows) ⌈16 * (objectH / params.min_layer_height)⌉
  let ncells1 := ncells / 2
  let cols1 := cols / 2
  let z_to_cell := ((ncells : ℚ) - 1) / objectH
  let cell_to_z := objectH / ((ncells : ℚ) - 1)
  let z_to_cell1 := ((ncells1 : ℚ) - 1) / objectH
  let hscale0 := 2 * max (params.max_layer_height - params.layer_height)
    (params.layer_height - params.min_layer_height)
  let hscale := if hscale0 = 0 then params.layer_height else hscale0
  let writes := (layerPairs layers).flatMap
    (fun lh => layerWrites params cosf rows cols level_of_detail_2nd_level
      ncells ncells1 cols1 z_to_cell cell_to_z z_to_cell1 hscale lh.1 lh.2)
  (writes, ncells)

/-! ## Concrete instances used by witnesses and counterexamples -/

/-- A cosine oracle constantly `1` (satisfies `|cos| ≤ 1`). -/
def cos1 : ℚ → ℚ := fun _ => 1

/-- Parameters: `H = 10`, nominal `0.2`, first layer `0.2` (not fixed),
`min = 0.1`, `max = 0.3`, no raft. -/
def paramsPlain : SlicingParameters := ⟨1/5, 1/10, 3/10, 1/5, 1/5, 0, 0, 0, 10⟩

/-- Parameters of scenario S1: `H = 10`, nominal `0.2`, first layer `0.3`
(hence fixed), `min = 0.1`, `max = 0.3`, no raft. -/
def paramsS1 : SlicingParameters := ⟨1/5, 1/10, 3/10, 3/10, 3/10, 0, 0, 0, 10⟩

/-- Parameters: `H = 0.2`, nominal `0.2`, first layer `0.2` (not fixed). -/
def paramsTiny : SlicingParameters := ⟨1/5, 1/10, 3/10, 1/5, 1/5, 0, 0, 0, 1/5⟩

/-- Parameters: `H = 1`, nominal `0.2`, first layer `0.2` (not fixed). -/
def paramsUnit : SlicingParameters := ⟨1/5, 1/10, 3/10, 1/5, 1/5, 0, 0, 0, 1⟩

/-- Parameters: `H = 1.5`, nominal `0.2`, first layer `0.3` (fixed). -/
def paramsFixed15 : SlicingParameters := ⟨1/5, 1/10, 3/10, 3/10, 3/10, 0, 0, 0, 3/2⟩

/-- Parameters: `H = 5`, nominal `0.2`, first layer `0.2` (not fixed). -/
def paramsFive : SlicingParameters := ⟨1/5, 1/10, 3/10, 1/5, 1/5, 0, 0, 0, 5⟩

/-- A mesh-height oracle constantly returning `0.05`
(below `min_layer_height = 0.1`). -/
def oracleLow : ℕ → ℚ := fun _ => 1/20

/-- A mesh-height oracle constantly returning `0.25`. -/
def oracleQuarter : ℕ → ℚ := fun _ => 1/4

/-- A flat profile of nominal height on `[0, 10]`. -/
def flatProfile : List ℚ := [0, 1/5, 10, 1/5]

/-- A valid profile on `[0, 10]` with constant height `0.099995`, inside
the `(min − EPSILON, max + EPSILON)` validity band but below `min = 0.1`. -/
def thinProfile : List ℚ := [0, 19999/200000, 10, 19999/200000]

/-- A profile on `[0, 1]`: height `0.2` up to `z = 0.8`, then a step to
height `0.3` on `[0.8, 1]`. -/
def stepProfile : List ℚ := [0, 1/5, 4/5, 1/5, 4/5, 3/10, 1, 3/10]

/-- The profile produced by `layer_height_profile_adaptive` on
`paramsTiny` with `oracleLow`. -/
def adaptiveLowOut : List ℚ :=
  [0, 1/5, 1/5, 1/20, 1/4, 1/20, 1/4, 1/20, 3/10, 1/20, 3/10, 1/5, 1/5, 1/5]

/-- The layer sequence produced by `generate_object_layers` on
`paramsUnit` with `stepProfile`. -/
def stepLayersOut : List ℚ :=
  [0, 1/5, 1/5, 2/5, 2/5, 3/5, 3/5, 4/5, 4/5, 11/10]

/-- The layer sequence produced by `generate_object_layers` on
`paramsFixed15` with the profile `[0, 0.3, 1.5, 0.3]`. -/
def fixedLayersOut : List ℚ :=
  [0, 3/10, 3/10, 3/5, 3/5, 9/10, 9/10, 6/5, 6/5, 3/2]

/-- The profile produced by the `Increase` edit of the C3 counterexample. -/
def adjustThinOut : List ℚ :=
  [0, 19999/200000, 48/5, 1/10, 97/10, 29999/200000, 49/5, 29999/200000,
   99/10, 29999/200000, 10, 19999/200000]

/-- The profile produced by `layer_height_profile_adaptive` on
`paramsTiny` with `oracleQuarter`. -/
def adaptiveQOut : List ℚ :=
  [0, 1/5, 1/5, 1/4, 9/20, 1/4, 9/20, 1/4, 7/10, 1/4, 7/10, 1/5, 1/5, 1/5]

/-- The loop output of `adaptiveLoop` at `objectH = 1/2` with
`oracleQuarter`. -/
def adaptiveQLoopOut : List ℚ :=
  [1/5, 1/4, 9/20, 1/4, 9/20, 1/4, 7/10, 1/4, 7/10, 1/4, 19/20, 1/4]

/-- The profile produced by the `Increase` edit of the C3 witness. -/
def adjustFlatOut : List ℚ := [0, 1/5, 99/20, 1/5, 10, 1/5]

/-! ## Helper lemmas -/

/-- `heightsOf` distributes over an append at an even boundary. -/
theorem heightsOf_append : ∀ (a b : List ℚ), a.length % 2 = 0 →
    heightsOf (a ++ b) = heightsOf a ++ heightsOf b
  | [], _, _ => rfl
  | [x], _, h => by simp [List.length] at h
  | x :: y :: rest, b, h => by
    have hr : rest.length % 2 = 0 := by
      simp only [List.length_cons] at h
      omega
    simp [heightsOf, heightsOf_append rest b hr]

/-- `zsOf` distributes over an append at an even boundary. -/
theorem zsOf_append : ∀ (a b : List ℚ), a.length % 2 = 0 →
    zsOf (a ++ b) = zsOf a ++ zsOf b
  | [], _, _ => rfl
  | [x], _, h => by simp [List.length] at h
  | x :: y :: rest, b, h => by
    have hr : rest.length % 2 = 0 := by
      simp only [List.length_cons] at h
      omega
    simp [zsOf, zsOf_append rest b hr]

/-! ## Claims -/

/-- **C10**: `generate_layer_height_texture` always returns
`min ((cols − 1) · rows, ⌈16 · object_print_z_height / min_layer_height⌉)`,
independently of the contents of `layers` and of the
`level_of_detail_2nd_level` flag. -/
theorem generate_layer_height_texture_returns_ncells
    (params : SlicingParameters) (layers : List ℚ) (rows cols : ℤ)
    (level_of_detail_2nd_level : Bool) (cosf : ℚ → ℚ) :
    (generate_layer_height_texture params layers rows cols
        level_of_detail_2nd_level cosf).2 =
      min ((cols - 1) * rows)
        ⌈16 * (params.object_print_z_height / params.min_layer_height)⌉ := rfl

/-- **C8** (counterexample): with `object_height = 10`,
`first_layer_height = 0.3`, nominal `0.2`, no raft, the first object layer
is fixed (`0.3 ≠ 0.2`), so `layer_height_profile_from_ranges` on the empty
range set does **not** return `[0, 0.2, 10, 0.2]`. -/
theorem from_ranges_s1_not_flat :
    layer_height_profile_from_ranges paramsS1 [] ≠ [0, 1/5, 10, 1/5] := by
  have h : layer_height_profile_from_ranges paramsS1 [] =
      [0, 3/10, 3/10, 3/10, 3/10, 1/5, 10, 1/5] := by with_unfolding_all exact rfl
  rw [h]
  intro hc
  have := congrArg List.length hc
  simp at this

/-- **C8** (amended): at those parameters the function returns the profile
with the fixed first-layer plateau,
`[0, 0.3, 0.3, 0.3, 0.3, 0.2, 10, 0.2]`. -/
theorem from_ranges_s1_profile :
    layer_height_profile_from_ranges paramsS1 [] =
      [0, 3/10, 3/10, 3/10, 3/10, 1/5, 10, 1/5] := by with_unfolding_all exact rfl

/-- **C9**: at a valid profile and an in-window edit with
`z − band_width/2 ≤ 0` and a non-fixed first layer, the seek loop of
`adjust_layer_height_profile` never advances, `idx -= 2` underflows the
unsigned index, and the subsequent `layer_height_profile[idx]` read is out
of bounds — the embedding returns `none` (the C++ trips its own
`assert(idx >= 0 && idx + 1 < layer_height_profile.size())`). -/
theorem adjust_underflow_at_zero :
    adjust_layer_height_profile paramsPlain cos1 flatProfile 0 (1/20) 2
      .Increase 50 = none := by with_unfolding_all exact rfl

/-- **C7**: `adjust_layer_height_profile` returns the profile unchanged
whenever `z` lies outside the variable window
`[first_object_layer_height if fixed else 0, object_print_z_height]`, and
whenever the action is `Reduce` or `Smooth` and
`min (|Δ|, |nominal − current height at z|) < EPSILON`. -/
theorem adjust_noop_paths (params : SlicingParameters) (cosf : ℚ → ℚ)
    (profile : List ℚ) (z delta band_width : ℚ)
    (action : LayerHeightEditActionType) (fuel : ℕ)
    (h : z < (if params.first_object_layer_height_fixed then
                params.first_object_layer_height else 0) ∨
         z > params.object_print_z_height ∨
         ((action = .Reduce ∨ action = .Smooth) ∧
          min |delta| |params.layer_height -
            sampleHeight params.layer_height profile z| < EPSILON)) :
    adjust_layer_height_profile params cosf profile z delta band_width action
      fuel = some profile := by
  unfold adjust_layer_height_profile
  rcases h with h | h | ⟨ha, hd⟩
  · rw [if_pos (Or.inl h)]
  · rw [if_pos (Or.inr h)]
  · by_cases hz : z < (if params.first_object_layer_height_fixed then
        params.first_object_layer_height else 0) ∨ z > params.object_print_z_height
    · rw [if_pos hz]
    · rw [if_neg hz]
      have hc : clampDelta params action delta
          (sampleHeight params.layer_height profile z) = none := by
        rcases ha with rfl | rfl <;> simp [clampDelta, hd]
      simp only [hc]

/-- **C7** (witness): an edit at `z = −1` on `paramsPlain` (window
`[0, 10]`) leaves `flatProfile` unchanged. -/
theorem adjust_noop_paths_witness :
    adjust_layer_height_profile paramsPlain cos1 flatProfile (-1) (1/20) 2
      .Increase 50 = some flatProfile :=
  adjust_noop_paths paramsPlain cos1 flatProfile (-1) (1/20) 2 .Increase 50
    (Or.inl (by norm_num [paramsPlain, SlicingParameters.first_object_layer_height_fixed,
      SlicingParameters.has_raft]))


/-! ## Loop invariant lemmas -/


theorem clamp_mem {lo hi : ℚ} (x : ℚ) (h : lo ≤ hi) :
    lo ≤ clamp lo hi x ∧ clamp lo hi x ≤ hi :=
  ⟨le_max_left _ _, max_le h (min_le_left _ _)⟩

theorem heightsOf_take_subset : ∀ (n : ℕ) (l : List ℚ), n % 2 = 0 →
    ∀ x ∈ heightsOf (l.take n), x ∈ heightsOf l := by
  intro n
  induction n using Nat.strong_induction_on with
  | _ n ih =>
    intro l hn x hx
    match n, l with
    | 0, l => simp [heightsOf] at hx
    | n+1, [] => simp [heightsOf] at hx
    | 1, a :: l => simp at hn
    | n+2, [a] =>
      simp only [List.take_succ_cons, List.take_nil, heightsOf] at hx
      exact absurd hx (by simp)
    | n+2, a :: b :: l =>
      simp only [List.take_succ_cons, heightsOf, List.mem_cons] at hx ⊢
      rcases hx with rfl | hx
      · exact Or.inl rfl
      · exact Or.inr (ih n (by omega) l (by omega) x hx)

theorem heightsOf_drop_subset (l : List ℚ) (n : ℕ) (hn : n % 2 = 0)
    (hl : l.length % 2 = 0) : ∀ x ∈ heightsOf (l.drop n), x ∈ heightsOf l := by
  intro x hx
  have h1 := heightsOf_append (l.take n) (l.drop n)
    (by simp [List.length_take]; omega)
  rw [List.take_append_drop] at h1
  rw [h1]
  exact List.mem_append.mpr (Or.inr hx)

theorem dropLast_two_eq_take (l : List ℚ) :
    l.dropLast.dropLast = l.take (l.length - 2) := by
  rw [List.dropLast_eq_take, List.dropLast_eq_take, List.length_take, List.take_take]
  congr 1
  omega

theorem getD_odd_mem_heights : ∀ (l : List ℚ) (j : ℕ), j % 2 = 1 → j < l.length →
    l.getD j 0 ∈ heightsOf l
  | [], j, _, h => by simp at h
  | [a], j, hj, h => by
    simp only [List.length_cons, List.length_nil] at h
    omega
  | a :: b :: l, 0, hj, h => by omega
  | a :: b :: l, 1, _, _ => by
    simp [heightsOf, List.getD]
  | a :: b :: l, (j+2), hj, h => by
    have hj' : j % 2 = 1 := by omega
    have hlen : j < l.length := by
      simp only [List.length_cons] at h
      omega
    have := getD_odd_mem_heights l j hj' hlen
    simp only [heightsOf, List.mem_cons]
    right
    simpa [List.getD] using this

theorem mem_heightsOf_getD : ∀ (l : List ℚ) (x : ℚ), x ∈ heightsOf l →
    ∃ j, j % 2 = 1 ∧ j < l.length ∧ l.getD j 0 = x
  | [], x, hx => by simp [heightsOf] at hx
  | [a], x, hx => by simp [heightsOf] at hx
  | a :: b :: rest, x, hx => by
    rcases List.mem_cons.mp hx with rfl | hx
    · exact ⟨1, rfl, by simp, rfl⟩
    · obtain ⟨j, hj1, hj2, hj3⟩ := mem_heightsOf_getD rest x hx
      refine ⟨j + 2, by omega, ?_, ?_⟩
      · simp only [List.length_cons]
        omega
      · simpa [List.getD] using hj3

theorem heightsWithin_iff_getD (lo hi : ℚ) (l : List ℚ) :
    heightsWithin lo hi l ↔
      ∀ j, j % 2 = 1 → j < l.length → lo < l.getD j 0 ∧ l.getD j 0 < hi := by
  constructor
  · intro h j hj1 hj2
    exact h _ (getD_odd_mem_heights l j hj1 hj2)
  · intro h x hx
    obtain ⟨j, hj1, hj2, hj3⟩ := mem_heightsOf_getD l x hx
    rw [← hj3]
    exact h j hj1 hj2

theorem getD_set_ne (l : List ℚ) (m j : ℕ) (v : ℚ) (h : m ≠ j) :
    (l.set m v).getD j 0 = l.getD j 0 := by
  simp [List.getD_eq_getD_get?, List.getElem?_set_ne h]

theorem getD_set_self (l : List ℚ) (m : ℕ) (v : ℚ) (h : m < l.length) :
    (l.set m v).getD m 0 = v := by
  simp [List.getD_eq_getD_get?, List.getElem?_set_self', h]

theorem getD_drop (l : List ℚ) (n j : ℕ) :
    (l.drop n).getD j 0 = l.getD (n + j) 0 := by
  simp [List.getD_eq_getD_get?, List.getElem?_drop]

theorem getD_take_lt (l : List ℚ) (n j : ℕ) (h : j < n) :
    (l.take n).getD j 0 = l.getD j 0 := by
  simp [List.getD_eq_getD_get?, List.getElem?_take_of_lt h]

theorem getD_append_pair (out : List ℚ) (a b : ℚ) :
    (out ++ [a, b]).getD out.length 0 = a ∧
    (out ++ [a, b]).getD (out.length + 1) 0 = b := by
  constructor
  · rw [List.getD_append_right _ _ _ _ le_rfl]
    simp
  · rw [List.getD_append_right _ _ _ _ (by omega)]
    simp

theorem chain'_concat_mono {l : List ℚ} {a b : ℚ}
    (h : List.Chain' (· ≤ ·) (l ++ [a])) (hab : a ≤ b) :
    List.Chain' (· ≤ ·) (l ++ [b]) := by
  rw [List.chain'_append] at h ⊢
  obtain ⟨h1, _, h3⟩ := h
  refine ⟨h1, List.chain'_singleton b, ?_⟩
  intro x hx y hy
  simp only [List.head?_cons, Option.mem_def, Option.some.injEq] at hy
  subst hy
  exact le_trans (h3 x hx a (by simp)) hab

theorem seekLoop_facts (p : List ℚ) (b : ℚ) (hpe : p.length % 2 = 0) :
    ∀ (fuel idx : ℕ), idx % 2 = 0 → idx ≤ p.length →
      idx ≤ seekLoop p b fuel idx ∧ seekLoop p b fuel idx ≤ p.length ∧
      (seekLoop p b fuel idx) % 2 = 0 ∧
      (¬ p.getD (p.length - 2) 0 < b → 2 ≤ p.length → idx ≤ p.length - 2 →
        seekLoop p b fuel idx ≤ p.length - 2)
  | 0, idx => by
    intro h2 hle
    exact ⟨le_rfl, hle, h2, fun _ _ h => h⟩
  | fuel + 1, idx => by
    intro h2 hle
    rw [seekLoop]
    by_cases hc : idx < p.length ∧ p.getD idx 0 < b
    · rw [if_pos hc]
      have hstep : idx + 2 ≤ p.length := by omega
      obtain ⟨ih1, ih2, ih3, ih4⟩ := seekLoop_facts p b hpe fuel (idx + 2) (by omega) hstep
      refine ⟨by omega, ih2, ih3, ?_⟩
      intro hb hlen2 hidx
      rcases Nat.lt_or_ge idx (p.length - 2) with hlt | hge
      · exact ih4 hb hlen2 (by omega)
      · have : idx = p.length - 2 := by omega
        rw [this] at hc
        exact absurd hc.2 hb
    · rw [if_neg hc]
      exact ⟨le_rfl, hle, h2, fun _ _ h => h⟩

theorem genLayersLoop_inv (objectH mn : ℚ) (p : List ℚ) :
    ∀ (fuel : ℕ) (print_z slice_z : ℚ) (idx : ℕ) (out res : List ℚ),
      genLayersLoop objectH mn p fuel print_z slice_z idx out = some res →
      out.length % 2 = 0 →
      (out = [] ∨ out.getD (out.length - 1) 0 = print_z) →
      (∃ t, res = out ++ t) ∧ res.length % 2 = 0 ∧
      ((∀ k, 2*k+2 < out.length → out.getD (2*k+1) 0 = out.getD (2*k+2) 0) →
        ∀ k, 2*k+2 < res.length → res.getD (2*k+1) 0 = res.getD (2*k+2) 0) ∧
      (∀ k0 : ℕ, (∀ k, k0 ≤ k → 2*k+1 < out.length →
          out.getD (2*k) 0 + out.getD (2*k+1) 0 < 2*objectH) →
        ∀ k, k0 ≤ k → 2*k+1 < res.length →
          res.getD (2*k) 0 + res.getD (2*k+1) 0 < 2*objectH)
  | 0, print_z, slice_z, idx, out, res => by
    intro h
    exact absurd h (by simp [genLayersLoop])
  | fuel + 1, print_z, slice_z, idx, out, res => by
    intro h heven hlast
    rw [genLayersLoop] at h
    by_cases hsz : slice_z < objectH
    · rw [if_pos hsz] at h
      -- name the sampled height and cursor
      set hidx := (if idx < p.length then
          (let i2 := genSeek p slice_z (p.length + 1) idx
           let z1 := p.getD i2 0
           let h1 := p.getD (i2 + 1) 0
           let next := i2 + 2
           (if next < p.length then
              lerp h1 (p.getD (next + 1) 0) ((slice_z - z1) / (p.getD next 0 - z1))
            else h1, i2))
        else (mn, idx)) with hh
      by_cases hterm : print_z + 1/2 * hidx.1 ≥ objectH
      · rw [if_pos hterm] at h
        obtain rfl : out = res := Option.some.inj h
        exact ⟨⟨[], by simp⟩, heven, fun ha => ha, fun k0 hmid => hmid⟩
      · rw [if_neg hterm] at h
        have heven' : (out ++ [print_z, print_z + hidx.1]).length % 2 = 0 := by
          simp [List.length_append]; omega
        have hlast' : (out ++ [print_z, print_z + hidx.1]) = [] ∨
            (out ++ [print_z, print_z + hidx.1]).getD
              ((out ++ [print_z, print_z + hidx.1]).length - 1) 0 = print_z + hidx.1 := by
          right
          have := (getD_append_pair out print_z (print_z + hidx.1)).2
          simp only [List.length_append, List.length_cons, List.length_nil]
          have hl : out.length + 2 - 1 = out.length + 1 := by omega
          rw [hl]
          exact this
        obtain ⟨⟨t, ht⟩, hre, hab, hmid⟩ :=
          genLayersLoop_inv objectH mn p fuel (print_z + hidx.1)
            (print_z + hidx.1 + 1/2 * mn) hidx.2 (out ++ [print_z, print_z + hidx.1]) res
            h heven' hlast'
        refine ⟨⟨[print_z, print_z + hidx.1] ++ t, by simp [ht]⟩, hre, ?_, ?_⟩
        · -- abutting
          intro habOut
          refine hab ?_
          intro k hk
          simp only [List.length_append, List.length_cons, List.length_nil] at hk
          rcases lt_trichotomy (2*k+2) out.length with hlt | heq | hgt
          · rw [List.getD_append _ _ _ _ (by omega), List.getD_append _ _ _ _ (by omega)]
            exact habOut k hlt
          · have h1 : (out ++ [print_z, print_z + hidx.1]).getD (2*k+1) 0 =
                out.getD (2*k+1) 0 := List.getD_append _ _ _ _ (by omega)
            have h2 : (out ++ [print_z, print_z + hidx.1]).getD (2*k+2) 0 = print_z := by
              have := (getD_append_pair out print_z (print_z + hidx.1)).1
              rw [← heq] at this
              exact this
            rw [h1, h2]
            rcases hlast with rfl | hl
            · simp at heq
            · rw [← heq] at hl
              have : 2*k+2-1 = 2*k+1 := by omega
              rw [this] at hl
              exact hl
          · omega
        · -- midpoints
          intro k0 hmidOut
          refine hmid k0 ?_
          intro k hk0 hk
          simp only [List.length_append, List.length_cons, List.length_nil] at hk
          rcases lt_trichotomy (2*k+1) out.length with hlt | heq | hgt
          · rw [List.getD_append _ _ _ _ (by omega), List.getD_append _ _ _ _ (by omega)]
            exact hmidOut k hk0 hlt
          · omega  -- 2k+1 odd, out.length even
          · -- 2k+1 = out.length + 1, i.e. 2k = out.length
            have h2k : 2*k = out.length := by omega
            have h1 : (out ++ [print_z, print_z + hidx.1]).getD (2*k) 0 = print_z := by
              have := (getD_append_pair out print_z (print_z + hidx.1)).1
              rw [← h2k] at this; exact this
            have h2 : (out ++ [print_z, print_z + hidx.1]).getD (2*k+1) 0 =
                print_z + hidx.1 := by
              have := (getD_append_pair out print_z (print_z + hidx.1)).2
              rw [← h2k] at this; exact this
            rw [h1, h2]
            push_neg at hterm
            linarith
    · rw [if_neg hsz] at h
      obtain rfl : out = res := Option.some.inj h
      exact ⟨⟨[], by simp⟩, heven, fun ha => ha, fun k0 hmid => hmid⟩

theorem adaptiveLoop_heights (objectH : ℚ) (oracle : ℕ → ℚ) :
    ∀ (fuel k : ℕ) (slice_z height : ℚ) (out : List ℚ) (zfin : ℚ),
      adaptiveLoop objectH oracle fuel k slice_z height = some (out, zfin) →
      ∀ x ∈ heightsOf out, ∃ j, x = min (oracle j) 999
  | 0, k, slice_z, height, out, zfin => by
    intro h
    exact absurd h (by simp [adaptiveLoop])
  | fuel + 1, k, slice_z, height, out, zfin => by
    intro h x hx
    rw [adaptiveLoop] at h
    by_cases hc : slice_z - height ≤ objectH
    · rw [if_pos hc] at h
      dsimp only at h
      rcases hrec : adaptiveLoop objectH oracle fuel (k + 1)
          (slice_z + min (oracle k) 999) (min (oracle k) 999) with _ | ⟨rest, zf⟩
      · rw [hrec] at h
        exact absurd h (by simp)
      · rw [hrec] at h
        simp only [Option.some.injEq, Prod.mk.injEq] at h
        obtain ⟨rfl, rfl⟩ := h
        simp only [heightsOf, List.mem_cons] at hx
        rcases hx with rfl | rfl | hx
        · exact ⟨k, rfl⟩
        · exact ⟨k, rfl⟩
        · exact adaptiveLoop_heights objectH oracle fuel (k + 1) _ _ rest _ hrec x hx
    · rw [if_neg hc] at h
      simp only [Option.some.injEq, Prod.mk.injEq] at h
      obtain ⟨rfl, rfl⟩ := h
      simp [heightsOf] at hx

theorem adaptiveLoop_inv (objectH mn mx : ℚ) (oracle : ℕ → ℚ)
    (hor : ∀ j, mn ≤ oracle j ∧ oracle j ≤ mx) (hmx : mx ≤ 999) (hmn : 0 < mn) :
    ∀ (fuel k : ℕ) (slice_z height : ℚ) (out : List ℚ) (zfin : ℚ),
      adaptiveLoop objectH oracle fuel k slice_z height = some (out, zfin) →
      (∀ x ∈ heightsOf out, mn ≤ x ∧ x ≤ mx) ∧
      out.length % 2 = 0 ∧
      slice_z ≤ zfin ∧
      List.Chain' (· ≤ ·) (slice_z :: (zsOf out ++ [zfin])) ∧
      (out = [] → zfin = slice_z) ∧
      (out ≠ [] → out.getD (out.length - 2) 0 = zfin)
  | 0, k, slice_z, height, out, zfin => by
    intro h
    exact absurd h (by simp [adaptiveLoop])
  | fuel + 1, k, slice_z, height, out, zfin => by
    intro h
    rw [adaptiveLoop] at h
    by_cases hc : slice_z - height ≤ objectH
    · rw [if_pos hc] at h
      dsimp only at h
      rcases hrec : adaptiveLoop objectH oracle fuel (k + 1)
          (slice_z + min (oracle k) 999) (min (oracle k) 999) with _ | ⟨rest, zf⟩
      · rw [hrec] at h
        exact absurd h (by simp)
      · rw [hrec] at h
        simp only [Option.some.injEq, Prod.mk.injEq] at h
        obtain ⟨rfl, rfl⟩ := h
        have hk := hor k
        have hmin : min (oracle k) 999 = oracle k := min_eq_left (by linarith)
        obtain ⟨ihh, ihe, ihz, ihch, ihnil, ihlast⟩ :=
          adaptiveLoop_inv objectH mn mx oracle hor hmx hmn fuel (k + 1) _ _ rest _ hrec
        have hpos : 0 < min (oracle k) 999 := by rw [hmin]; linarith
        refine ⟨?_, ?_, ?_, ?_, ?_, ?_⟩
        · intro x hx
          simp only [heightsOf, List.mem_cons] at hx
          rcases hx with rfl | rfl | hx
          · rw [hmin]; exact hk
          · rw [hmin]; exact hk
          · exact ihh x hx
        · simp only [List.length_cons]
          omega
        · linarith
        · show List.Chain' (· ≤ ·)
            (slice_z :: (zsOf (slice_z :: min (oracle k) 999 :: (slice_z + min (oracle k) 999) ::
              min (oracle k) 999 :: rest) ++ [zf]))
          have hzs : zsOf (slice_z :: min (oracle k) 999 :: (slice_z + min (oracle k) 999) ::
              min (oracle k) 999 :: rest) = slice_z :: (slice_z + min (oracle k) 999) :: zsOf rest := rfl
          rw [hzs]
          simp only [List.cons_append]
          rw [List.chain'_cons]
          refine ⟨le_refl _, ?_⟩
          rw [List.chain'_cons]
          exact ⟨by linarith, ihch⟩
        · intro hne
          exact absurd hne (by simp)
        · intro _
          rcases Decidable.em (rest = []) with rfl | hne
          · have hzf : zf = slice_z + min (oracle k) 999 := ihnil rfl
            simp [hzf]
          · have hlen : rest.length ≥ 2 := by
              rcases rest with _ | ⟨a, rest'⟩
              · exact absurd rfl hne
              · rcases rest' with _ | ⟨b, rest''⟩
                · simp [List.length_cons] at ihe
                · simp [List.length_cons]
            show (([slice_z, min (oracle k) 999, slice_z + min (oracle k) 999,
              min (oracle k) 999] ++ rest).getD
                ((slice_z :: min (oracle k) 999 :: (slice_z + min (oracle k) 999) ::
                  min (oracle k) 999 :: rest).length - 2) 0 = zf)
            have hlen2 : (slice_z :: min (oracle k) 999 :: (slice_z + min (oracle k) 999) ::
                min (oracle k) 999 :: rest).length - 2 = rest.length - 2 + 4 := by
              simp only [List.length_cons]
              omega
            rw [hlen2, List.getD_append_right _ _ _ _ (by simp)]
            have : rest.length - 2 + 4 - 4 = rest.length - 2 := by omega
            simp only [List.length_cons, List.length_nil]
            rw [show rest.length - 2 + 4 - 4 = rest.length - 2 by omega]
            exact ihlast hne
    · rw [if_neg hc] at h
      simp only [Option.some.injEq, Prod.mk.injEq] at h
      obtain ⟨rfl, rfl⟩ := h
      refine ⟨by simp [heightsOf], by simp, le_refl _, ?_, fun _ => rfl, fun hne => absurd rfl hne⟩
      simp [zsOf, List.chain'_cons]

theorem resampleHeight_mem (params : SlicingParameters) (cosf : ℚ → ℚ)
    (action : LayerHeightEditActionType) (delta z band_width : ℚ)
    (old : List ℚ) (zz : ℚ) (idx : ℕ)
    (h : params.min_layer_height ≤ params.max_layer_height) :
    params.min_layer_height ≤
      resampleHeight params cosf action delta z band_width old zz idx ∧
    resampleHeight params cosf action delta z band_width old zz idx ≤
      params.max_layer_height := by
  unfold resampleHeight
  exact clamp_mem _ h

theorem resampleLoop_inv (params : SlicingParameters) (cosf : ℚ → ℚ)
    (action : LayerHeightEditActionType) (delta z band_width hi : ℚ)
    (p : List ℚ)
    (hmnmx : params.min_layer_height ≤ params.max_layer_height)
    (hEH : EPSILON < params.object_print_z_height)
    (hpe : p.length % 2 = 0)
    (hzlast : p.getD (p.length - 2) 0 = params.object_print_z_height) :
    ∀ (fuel : ℕ) (zz : ℚ) (idx : ℕ) (acc accF : List ℚ) (idxA : ℕ),
      resampleLoop params cosf action delta z band_width hi
        params.object_print_z_height p fuel zz idx acc = some (accF, idxA) →
      idx % 2 = 0 →
      2 ≤ acc.length → acc.length % 2 = 0 → acc.getD 0 0 = 0 →
      heightsWithin (params.min_layer_height - EPSILON)
        (params.max_layer_height + EPSILON) acc →
      (idx + 4 ≤ p.length ∨ (¬ zz < hi ∧ idx + 2 ≤ p.length)) →
      (2 ≤ accF.length ∧ accF.length % 2 = 0 ∧ accF.getD 0 0 = 0 ∧
        heightsWithin (params.min_layer_height - EPSILON)
          (params.max_layer_height + EPSILON) accF ∧ idxA % 2 = 0) ∧
      ((idxA = p.length ∧
         accF.getD (accF.length - 2) 0 = params.object_print_z_height) ∨
       idxA + 4 ≤ p.length ∨
       (accF = acc ∧ idxA = idx))
  | 0, zz, idx, acc, accF, idxA => by
    intro hres
    exact absurd hres (by simp [resampleLoop])
  | fuel + 1, zz, idx, acc, accF, idxA => by
    intro hres hidx2 hacc2 hacce hacc0 hacch hidx
    have hEP : (0:ℚ) < EPSILON := by norm_num [EPSILON]
    rw [resampleLoop] at hres
    by_cases h1 : zz < hi
    · rw [if_pos h1] at hres
      dsimp only at hres
      rw [if_pos hacc2] at hres
      have hidx4 : idx + 4 ≤ p.length := by
        rcases hidx with h | ⟨hno, _⟩
        · exact h
        · exact absurd h1 hno
      set hgt := resampleHeight params cosf action delta z band_width p zz idx
        with hhgt
      have hgtmem := resampleHeight_mem params cosf action delta z band_width
        p zz idx hmnmx
      have hgtopen : params.min_layer_height - EPSILON < hgt ∧
          hgt < params.max_layer_height + EPSILON := by
        constructor <;> [linarith [hgtmem.1]; linarith [hgtmem.2]]
      by_cases h2 : zz = params.object_print_z_height
      · rw [if_pos h2] at hres
        -- break branch
        by_cases h3 : acc.getD (acc.length - 2) 0 + EPSILON > zz
        · rw [if_pos h3] at hres
          -- the pop cannot reach the head: acc.length = 2 is impossible
          have hlen4 : 4 ≤ acc.length := by
            rcases Nat.lt_or_ge acc.length 4 with hl | hl
            · have h2' : acc.length = 2 := by omega
              have : acc.getD (acc.length - 2) 0 = 0 := by
                rw [h2']; exact hacc0
              rw [this, h2] at h3
              linarith
            · exact hl
          obtain ⟨rfl, rfl⟩ : acc.dropLast.dropLast ++ [zz, hgt] = accF ∧
              p.length = idxA := Prod.mk.injEq .. ▸ Option.some.inj hres
          have htake := dropLast_two_eq_take acc
          have hlendd : acc.dropLast.dropLast.length = acc.length - 2 := by
            rw [htake, List.length_take]
            omega
          refine ⟨⟨?_, ?_, ?_, ?_, by omega⟩, Or.inl ⟨rfl, ?_⟩⟩
          · simp only [List.length_append, hlendd, List.length_cons, List.length_nil]
            omega
          · simp only [List.length_append, hlendd, List.length_cons, List.length_nil]
            omega
          · rw [List.getD_append _ _ _ _ (by omega)]
            rw [htake, getD_take_lt _ _ _ (by omega)]
            exact hacc0
          · intro x hx
            rw [heightsOf_append _ _ (by rw [hlendd]; omega)] at hx
            rcases List.mem_append.mp hx with hx | hx
            · rw [htake] at hx
              exact hacch x (heightsOf_take_subset _ _ (by omega) x hx)
            · have : x = hgt := by
                simp only [heightsOf, List.mem_cons] at hx
                rcases hx with rfl | hx
                · rfl
                · simp [heightsOf] at hx
              rw [this]
              exact hgtopen
          · rw [List.getD_append_right _ _ _ _ (by simp [hlendd])]
            simp only [List.length_append, hlendd, List.length_cons, List.length_nil]
            rw [show acc.length - 2 + 2 - 2 - (acc.length - 2) = 0 by omega]
            simpa using h2
        · rw [if_neg h3] at hres
          obtain ⟨rfl, rfl⟩ : acc ++ [zz, hgt] = accF ∧ p.length = idxA :=
            Prod.mk.injEq .. ▸ Option.some.inj hres
          refine ⟨⟨?_, ?_, ?_, ?_, by omega⟩, Or.inl ⟨rfl, ?_⟩⟩
          · simp only [List.length_append, List.length_cons, List.length_nil]
            omega
          · simp only [List.length_append, List.length_cons, List.length_nil]
            omega
          · rw [List.getD_append _ _ _ _ (by omega)]
            exact hacc0
          · intro x hx
            rw [heightsOf_append _ _ hacce] at hx
            rcases List.mem_append.mp hx with hx | hx
            · exact hacch x hx
            · have : x = hgt := by
                simp only [heightsOf, List.mem_cons] at hx
                rcases hx with rfl | hx
                · rfl
                · simp [heightsOf] at hx
              rw [this]
              exact hgtopen
          · rw [List.getD_append_right _ _ _ _ (by simp)]
            simp only [List.length_append, List.length_cons, List.length_nil]
            rw [show acc.length + 2 - 2 - acc.length = 0 by omega]
            simpa using h2
      · rw [if_neg h2] at hres
        -- continue branch: seek and recurse
        have hseek := seekLoop_facts p (min (zz + 1/10) params.object_print_z_height)
          hpe (p.length + 1) (idx + 2) (by omega) (by omega)
        obtain ⟨hs1, hs2, hs3, hs4⟩ := hseek
        have hsle : seekLoop p (min (zz + 1/10) params.object_print_z_height)
            (p.length + 1) (idx + 2) ≤ p.length - 2 := by
          refine hs4 ?_ (by omega) (by omega)
          rw [hzlast]
          simp only [not_lt]
          exact min_le_right _ _
        rw [if_neg (by omega)] at hres
        set acc' := if acc.getD (acc.length - 2) 0 + EPSILON < zz
            then acc ++ [zz, hgt] else acc with hacc'
        have hinv' : 2 ≤ acc'.length ∧ acc'.length % 2 = 0 ∧ acc'.getD 0 0 = 0 ∧
            heightsWithin (params.min_layer_height - EPSILON)
              (params.max_layer_height + EPSILON) acc' := by
          rw [hacc']
          by_cases hc : acc.getD (acc.length - 2) 0 + EPSILON < zz
          · rw [if_pos hc]
            refine ⟨?_, ?_, ?_, ?_⟩
            · simp only [List.length_append, List.length_cons, List.length_nil]
              omega
            · simp only [List.length_append, List.length_cons, List.length_nil]
              omega
            · rw [List.getD_append _ _ _ _ (by omega)]
              exact hacc0
            · intro x hx
              rw [heightsOf_append _ _ hacce] at hx
              rcases List.mem_append.mp hx with hx | hx
              · exact hacch x hx
              · have : x = hgt := by
                  simp only [heightsOf, List.mem_cons] at hx
                  rcases hx with rfl | hx
                  · rfl
                  · simp [heightsOf] at hx
                rw [this]
                exact hgtopen
          · rw [if_neg hc]
            exact ⟨hacc2, hacce, hacc0, hacch⟩
        obtain ⟨hcc, hdisj⟩ := resampleLoop_inv params cosf action delta z
          band_width hi p hmnmx hEH hpe hzlast fuel
          (min (zz + 1/10) params.object_print_z_height)
          (seekLoop p (min (zz + 1/10) params.object_print_z_height)
            (p.length + 1) (idx + 2) - 2) acc' accF idxA hres
          (by omega) hinv'.1 hinv'.2.1 hinv'.2.2.1 hinv'.2.2.2
          (Or.inl (by omega))
        refine ⟨hcc, ?_⟩
        rcases hdisj with h | h | ⟨rfl, rfl⟩
        · exact Or.inl h
        · exact Or.inr (Or.inl h)
        · exact Or.inr (Or.inl (by omega))
    · rw [if_neg h1] at hres
      obtain ⟨rfl, rfl⟩ : acc = accF ∧ idx = idxA :=
        Prod.mk.injEq .. ▸ Option.some.inj hres
      exact ⟨⟨hacc2, hacce, hacc0, hacch, hidx2⟩, Or.inr (Or.inr ⟨rfl, rfl⟩)⟩

theorem smoothNewHeight_mem (cosf : ℚ → ℚ) (z band_width : ℚ)
    (hcos : ∀ x, |cosf x| ≤ 1) (lo hi : ℚ)
    (snap : List ℚ) (i : ℕ)
    (hse : snap.length % 2 = 0)
    (hsh : heightsWithin lo hi snap)
    (h2 : 2 ≤ i) (hieven : i % 2 = 0) (hlt : i + 4 ≤ snap.length) :
    lo < smoothNewHeight cosf z band_width snap i ∧
    smoothNewHeight cosf z band_width snap i < hi := by
  unfold smoothNewHeight
  rw [if_neg (by omega : ¬ i = 0), if_neg (by omega : ¬ i + 1 = snap.length)]
  set t := (if |snap.getD i 0 - z| < band_width / 2 then
    1/4 + 1/4 * cosf ((snap.getD i 0 - z) / band_width) else 0) with ht
  have htb : 0 ≤ t ∧ t ≤ 1/2 := by
    rw [ht]
    by_cases hc : |snap.getD i 0 - z| < band_width / 2
    · rw [if_pos hc]
      have := abs_le.mp (hcos ((snap.getD i 0 - z) / band_width))
      constructor <;> linarith [this.1, this.2]
    · rw [if_neg hc]
      norm_num
  have ha := (heightsWithin_iff_getD lo hi snap).mp hsh (i + 1) (by omega) (by omega)
  have hb := (heightsWithin_iff_getD lo hi snap).mp hsh (i - 1) (by omega) (by omega)
  have hc := (heightsWithin_iff_getD lo hi snap).mp hsh (i + 3) (by omega) (by omega)
  constructor
  · nlinarith [mul_nonneg (by linarith [htb.2] : (0:ℚ) ≤ 1 - t)
      (by linarith [ha.1] : (0:ℚ) ≤ snap.getD (i+1) 0 - lo),
      mul_nonneg (by linarith [htb.1] : (0:ℚ) ≤ t / 2)
        (by linarith [hb.1] : (0:ℚ) ≤ snap.getD (i-1) 0 - lo),
      mul_nonneg (by linarith [htb.1] : (0:ℚ) ≤ t / 2)
        (by linarith [hc.1] : (0:ℚ) ≤ snap.getD (i+3) 0 - lo),
      mul_pos (by linarith [htb.2] : (0:ℚ) < 1 - t + t/2 + t/2)
        (by linarith [ha.1, hb.1, hc.1] : (0:ℚ) < 1) ]
  · nlinarith [mul_nonneg (by linarith [htb.2] : (0:ℚ) ≤ 1 - t)
      (by linarith [ha.2] : (0:ℚ) ≤ hi - snap.getD (i+1) 0),
      mul_nonneg (by linarith [htb.1] : (0:ℚ) ≤ t / 2)
        (by linarith [hb.2] : (0:ℚ) ≤ hi - snap.getD (i-1) 0),
      mul_nonneg (by linarith [htb.1] : (0:ℚ) ≤ t / 2)
        (by linarith [hc.2] : (0:ℚ) ≤ hi - snap.getD (i+3) 0) ]

theorem smoothOnce_inv (cosf : ℚ → ℚ) (z band_width : ℚ)
    (hcos : ∀ x, |cosf x| ≤ 1) (lo hi : ℚ) (iE : ℕ) (snap : List ℚ)
    (hse : snap.length % 2 = 0) (hsh : heightsWithin lo hi snap)
    (hiE : iE + 2 ≤ snap.length) :
    ∀ (fuel i : ℕ) (prof : List ℚ), 2 ≤ i → i % 2 = 0 →
      prof.length = snap.length →
      heightsWithin lo hi prof →
      (smoothOnce cosf z band_width iE snap fuel i prof).length = prof.length ∧
      (∀ j, j % 2 = 0 →
        (smoothOnce cosf z band_width iE snap fuel i prof).getD j 0 =
          prof.getD j 0) ∧
      heightsWithin lo hi (smoothOnce cosf z band_width iE snap fuel i prof)
  | 0, i, prof => by
    intro _ _ _ hh
    rw [smoothOnce]
    exact ⟨rfl, fun _ _ => rfl, hh⟩
  | fuel + 1, i, prof => by
    intro h2 hieven hlen hh
    rw [smoothOnce]
    by_cases hc : i < iE
    · rw [if_pos hc]
      have hset : (prof.set (i + 1) (smoothNewHeight cosf z band_width snap i)).length =
          prof.length := by simp
      have hnew := smoothNewHeight_mem cosf z band_width hcos lo hi snap i hse hsh
        h2 hieven (by omega)
      have hh' : heightsWithin lo hi
          (prof.set (i + 1) (smoothNewHeight cosf z band_width snap i)) := by
        rw [heightsWithin_iff_getD]
        intro j hj1 hj2
        rw [hset] at hj2
        rcases Decidable.em (i + 1 = j) with rfl | hne
        · rw [getD_set_self _ _ _ (by omega)]
          exact hnew
        · rw [getD_set_ne _ _ _ _ hne]
          exact (heightsWithin_iff_getD lo hi prof).mp hh j hj1 hj2
      obtain ⟨ih1, ih2, ih3⟩ := smoothOnce_inv cosf z band_width hcos lo hi iE snap
        hse hsh hiE fuel (i + 2)
        (prof.set (i + 1) (smoothNewHeight cosf z band_width snap i))
        (by omega) (by omega) (by rw [hset]; exact hlen) hh'
      refine ⟨by rw [ih1, hset], ?_, ih3⟩
      intro j hj
      rw [ih2 j hj, getD_set_ne _ _ _ _ (by omega)]
    · rw [if_neg hc]
      exact ⟨rfl, fun _ _ => rfl, hh⟩

theorem smoothRounds_inv (cosf : ℚ → ℚ) (z band_width : ℚ)
    (hcos : ∀ x, |cosf x| ≤ 1) (lo hi : ℚ) (iS iE : ℕ)
    (hiS : 2 ≤ iS) (hiSe : iS % 2 = 0) :
    ∀ (n : ℕ) (prof : List ℚ), prof.length % 2 = 0 →
      heightsWithin lo hi prof →
      iE + 2 ≤ prof.length →
      (smoothRounds cosf z band_width iS iE n prof).length = prof.length ∧
      (∀ j, j % 2 = 0 →
        (smoothRounds cosf z band_width iS iE n prof).getD j 0 = prof.getD j 0) ∧
      heightsWithin lo hi (smoothRounds cosf z band_width iS iE n prof)
  | 0, prof => by
    intro _ hh _
    rw [smoothRounds]
    exact ⟨rfl, fun _ _ => rfl, hh⟩
  | n + 1, prof => by
    intro hpe hh hiE
    rw [smoothRounds]
    obtain ⟨h1, h2, h3⟩ := smoothOnce_inv cosf z band_width hcos lo hi iE prof
      hpe hh hiE (prof.length + 1) iS prof hiS hiSe rfl hh
    obtain ⟨ih1, ih2, ih3⟩ := smoothRounds_inv cosf z band_width hcos lo hi iS iE
      hiS hiSe n (smoothOnce cosf z band_width iE prof (prof.length + 1) iS prof)
      (by rw [h1]; exact hpe) h3 (by rw [h1]; exact hiE)
    refine ⟨by rw [ih1, h1], ?_, ih3⟩
    intro j hj
    rw [ih2 j hj, h2 j hj]

theorem smoothPass_inv (cosf : ℚ → ℚ) (z band_width : ℚ)
    (hcos : ∀ x, |cosf x| ≤ 1) (lo hi : ℚ) (iS iE : ℕ) (prof : List ℚ)
    (hiS : 2 ≤ iS) (hiSe : iS % 2 = 0)
    (hpe : prof.length % 2 = 0) (hplen : 2 ≤ prof.length)
    (hh : heightsWithin lo hi prof)
    (hiE : iE = prof.length ∨ iE + 2 ≤ prof.length) :
    (smoothPass cosf z band_width iS iE prof).length = prof.length ∧
    (∀ j, j % 2 = 0 →
      (smoothPass cosf z band_width iS iE prof).getD j 0 = prof.getD j 0) ∧
    heightsWithin lo hi (smoothPass cosf z band_width iS iE prof) := by
  unfold smoothPass
  rw [if_neg (by omega : ¬ iS = 0)]
  have hiE' : (if iE = prof.length then iE - 2 else iE) + 2 ≤ prof.length := by
    by_cases hc : iE = prof.length
    · rw [if_pos hc]
      omega
    · rw [if_neg hc]
      rcases hiE with h | h
      · exact absurd h hc
      · exact h
  exact smoothRounds_inv cosf z band_width hcos lo hi iS _ hiS hiSe 6 prof hpe hh hiE'

theorem adjust_finish (cosf : ℚ → ℚ) (z band_width : ℚ)
    (action : LayerHeightEditActionType) (iS iE : ℕ) (p1 p' : List ℚ)
    (lo hi H : ℚ) (hcos : ∀ x, |cosf x| ≤ 1)
    (hres : (if action = .Smooth then smoothPass cosf z band_width iS iE p1
             else p1) = p')
    (hiS : 2 ≤ iS) (hiSe : iS % 2 = 0)
    (hp1e : p1.length % 2 = 0) (hp1len : 2 ≤ p1.length)
    (hp10 : p1.getD 0 0 = 0) (hp1last : p1.getD (p1.length - 2) 0 = H)
    (hp1h : heightsWithin lo hi p1)
    (hiE : iE = p1.length ∨ iE + 2 ≤ p1.length) :
    p'.getD 0 0 = 0 ∧ p'.getD (p'.length - 2) 0 = H ∧ heightsWithin lo hi p' := by
  subst hres
  by_cases hA : action = .Smooth
  · rw [if_pos hA]
    obtain ⟨h1, h2, h3⟩ := smoothPass_inv cosf z band_width hcos lo hi iS iE p1
      hiS hiSe hp1e hp1len hp1h hiE
    refine ⟨?_, ?_, h3⟩
    · rw [h2 0 rfl]
      exact hp10
    · rw [h1, h2 (p1.length - 2) (by omega)]
      exact hp1last
  · rw [if_neg hA]
    exact ⟨hp10, hp1last, hp1h⟩


/-! ## Claims (continued) -/


/-- **C5**: every layer sequence emitted by `generate_object_layers` is
abutting — each pair's high boundary equals the next pair's low boundary —
and when the first object layer is fixed the sequence starts with the pair
`(0, first_object_layer_height)`. -/
theorem generate_object_layers_abutting (params : SlicingParameters)
    (profile : List ℚ) (fuel : ℕ) (out : List ℚ)
    (h : generate_object_layers params profile fuel = some out) :
    (∀ k, 2*k+2 < out.length → out.getD (2*k+1) 0 = out.getD (2*k+2) 0) ∧
    (params.first_object_layer_height_fixed = true →
      out.getD 0 0 = 0 ∧ out.getD 1 0 = params.first_object_layer_height) := by
  unfold generate_object_layers at h
  by_cases hf : params.first_object_layer_height_fixed
  · simp only [hf, if_true] at h
    obtain ⟨⟨t, ht⟩, _, hab, _⟩ := genLayersLoop_inv _ _ _ _ _ _ _ _ _ h
      (by simp) (Or.inr (by simp))
    refine ⟨hab ?_, fun _ => ?_⟩
    · intro k hk
      simp only [List.length_cons, List.length_nil] at hk
      omega
    · subst ht
      exact ⟨rfl, rfl⟩
  · simp only [Bool.not_eq_true] at hf
    simp only [hf, Bool.false_eq_true, if_false] at h
    obtain ⟨⟨t, ht⟩, _, hab, _⟩ := genLayersLoop_inv _ _ _ _ _ _ _ _ _ h
      (by simp) (Or.inl rfl)
    refine ⟨hab ?_, fun hff => ?_⟩
    · intro k hk
      simp at hk
    · rw [hf] at hff
      exact absurd hff (by simp)

/-- **C5** (witness): the abutting property and the fixed first pair on a
concrete run with a fixed `0.3` first layer over `[0, 1.5]`. -/
theorem generate_object_layers_abutting_witness :
    List.getD fixedLayersOut 3 0 = List.getD fixedLayersOut 4 0 ∧
    List.getD fixedLayersOut 0 0 = 0 ∧
    List.getD fixedLayersOut 1 0 = paramsFixed15.first_object_layer_height := by
  have h := generate_object_layers_abutting paramsFixed15 [0, 3/10, 3/2, 3/10] 20
    fixedLayersOut (by with_unfolding_all exact rfl)
  exact ⟨h.1 1 (by norm_num [fixedLayersOut]), h.2 (by with_unfolding_all exact rfl)⟩

/-- **C2** (amended): every pair emitted by the main loop of
`generate_object_layers` has its midpoint `(lo + hi)/2` strictly below
`object_print_z_height` (the midpoint is the `slice_z` the loop tested);
hence `hi < object_print_z_height + (hi − lo)/2`, but `hi` itself — in
particular the last one — may exceed the object top by up to half a layer
height.  The fixed first pair `(0, first_object_layer_height)` is exempt. -/
theorem generate_object_layers_mid_below_top (params : SlicingParameters)
    (profile : List ℚ) (fuel : ℕ) (out : List ℚ)
    (h : generate_object_layers params profile fuel = some out) :
    ∀ k, 2*k+1 < out.length →
      (params.first_object_layer_height_fixed = true ∧ k = 0) ∨
      out.getD (2*k) 0 + out.getD (2*k+1) 0 < 2 * params.object_print_z_height := by
  unfold generate_object_layers at h
  by_cases hf : params.first_object_layer_height_fixed
  · simp only [hf, if_true] at h
    obtain ⟨_, _, _, hmid⟩ := genLayersLoop_inv _ _ _ _ _ _ _ _ _ h
      (by simp) (Or.inr (by simp))
    intro k hk
    rcases Nat.eq_zero_or_pos k with rfl | hpos
    · exact Or.inl ⟨hf, rfl⟩
    · refine Or.inr (hmid 1 ?_ k hpos hk)
      intro k' hk' hlen
      simp only [List.length_cons, List.length_nil] at hlen
      omega
  · simp only [Bool.not_eq_true] at hf
    simp only [hf, Bool.false_eq_true, if_false] at h
    obtain ⟨_, _, _, hmid⟩ := genLayersLoop_inv _ _ _ _ _ _ _ _ _ h
      (by simp) (Or.inl rfl)
    intro k hk
    refine Or.inr (hmid 0 ?_ k (Nat.zero_le _) hk)
    intro k' _ hlen
    simp at hlen

/-- **C2** (counterexample): on a profile stepping from height `0.2` to
`0.3` at `z = 0.8` with object top `1`, the last emitted pair is
`(0.8, 1.1)`: its high boundary exceeds `object_print_z_height = 1`,
refuting `hi_last ≤ object_print_z_height`. -/
theorem generate_object_layers_top_overshoot :
    generate_object_layers paramsUnit stepProfile 20 = some stepLayersOut ∧
    stepLayersOut.getD 9 0 > paramsUnit.object_print_z_height := by
  constructor
  · with_unfolding_all exact rfl
  · norm_num [stepLayersOut, paramsUnit, SlicingParameters.object_print_z_height]

/-- **C2** (witness): the amended midpoint bound at the last pair of the
`stepProfile` run. -/
theorem generate_object_layers_mid_below_top_witness :
    (paramsUnit.first_object_layer_height_fixed = true ∧ 4 = 0) ∨
    List.getD stepLayersOut 8 0 + List.getD stepLayersOut 9 0 <
      2 * paramsUnit.object_print_z_height :=
  generate_object_layers_mid_below_top paramsUnit stepProfile 20 stepLayersOut
    (by with_unfolding_all exact rfl) 4 (by norm_num [stepLayersOut])

/-- **C1** (amended): for positive parameters whose first object layer
height lies inside `[min_layer_height, max_layer_height]` and an oracle
whose values all lie in that interval, a terminating run of
`layer_height_profile_adaptive` yields a profile whose first Z is `0`,
whose last Z equals `object_print_z_height` exactly, whose height entries
all lie in `[min_layer_height, max_layer_height]`, and whose Z entries are
non-decreasing up to and including the start of the final plateau — the
final step down to the top Z is excluded, because the loop overshoots the
object top before the plateau is appended. -/
theorem adaptive_profile_amended (params : SlicingParameters) (oracle : ℕ → ℚ)
    (fuel : ℕ) (P : List ℚ)
    (hmn : 0 < params.min_layer_height)
    (hfoh1 : params.min_layer_height ≤ params.first_object_layer_height)
    (hfoh2 : params.first_object_layer_height ≤ params.max_layer_height)
    (hor : ∀ j, params.min_layer_height ≤ oracle j ∧ oracle j ≤ params.max_layer_height)
    (hmx : params.max_layer_height ≤ 999)
    (h : layer_height_profile_adaptive params oracle fuel = some P) :
    P.getD 0 0 = 0 ∧
    P.getD (P.length - 2) 0 = params.object_print_z_height ∧
    (∀ x ∈ heightsOf P, params.min_layer_height ≤ x ∧ x ≤ params.max_layer_height) ∧
    List.Chain' (· ≤ ·) ((zsOf P).dropLast) := by
  unfold layer_height_profile_adaptive at h
  dsimp only at h
  rcases hrec : adaptiveLoop params.object_print_z_height oracle fuel 0
      params.first_object_layer_height params.first_object_layer_height with _ | ⟨L, zf⟩
  · rw [hrec] at h
    exact absurd h (by simp)
  obtain ⟨ihh, ihe, ihz, ihch, ihnil, ihlast⟩ :=
    adaptiveLoop_inv params.object_print_z_height params.min_layer_height
      params.max_layer_height oracle hor hmx hmn fuel 0 _ _ L zf hrec
  rw [hrec] at h
  dsimp only at h
  set foh := params.first_object_layer_height with hfoh
  set objH := params.object_print_z_height with hobjH
  by_cases hf : params.first_object_layer_height_fixed
  all_goals
    simp only [hf, if_true, Bool.false_eq_true, if_false, List.append_nil] at h
  -- fixed case first
  case pos =>
    set p : List ℚ := [0, foh] ++ [foh, foh] ++ L with hp
    have hpL : p = [0, foh, foh, foh] ++ L := by simp [hp]
    set last := max foh (p.getD (p.length - 2) 0) with hlast
    obtain rfl : p ++ [last, foh, objH, foh] = P := Option.some.inj h
    have hpe : p.length % 2 = 0 := by
      rw [hpL]
      simp only [List.length_append, List.length_cons, List.length_nil]
      omega
    have hzfle : zf ≤ last := by
      rcases Decidable.em (L = []) with rfl | hne
      · have : zf = foh := ihnil rfl
        rw [this, hlast]
        exact le_max_left _ _
      · have hLlen : L.length ≥ 2 := by
          rcases L with _ | ⟨a, L'⟩
          · exact absurd rfl hne
          rcases L' with _ | ⟨b, L''⟩
          · simp at ihe
          · simp [List.length_cons]
        have hidx : p.length - 2 = L.length - 2 + 4 := by
          rw [hpL]; simp only [List.length_append, List.length_cons, List.length_nil]; omega
        have : p.getD (p.length - 2) 0 = zf := by
          rw [hidx, hpL, List.getD_append_right _ _ _ _ (by simp)]
          simp only [List.length_cons, List.length_nil]
          rw [show L.length - 2 + 4 - 4 = L.length - 2 by omega]
          exact ihlast hne
        rw [hlast, this]
        exact le_max_right _ _
    have hchain2 : List.Chain' (· ≤ ·) (foh :: (zsOf L ++ [last])) := by
      have hc0 : List.Chain' (· ≤ ·) ((foh :: zsOf L) ++ [zf]) := by
        have h4 : zsOf ([0, foh, foh, foh] ++ L) = [0, foh] ++ zsOf L := by
          rw [zsOf_append _ _ (by simp)]; rfl
        simpa using ihch
      have := chain'_concat_mono hc0 hzfle
      simpa using this
    refine ⟨?_, ?_, ?_, ?_⟩
    · rw [hpL]
      simp [List.getD_append, List.getD]
    · have hlen : (p ++ [last, foh, objH, foh]).length - 2 = p.length + 2 := by
        simp only [List.length_append, List.length_cons, List.length_nil]; omega
      rw [hlen, List.getD_append_right _ _ _ _ (by omega)]
      simp
    · intro x hx
      rw [heightsOf_append _ _ hpe, hpL, heightsOf_append _ _ (by simp)] at hx
      simp only [List.mem_append] at hx
      rcases hx with (hx | hx) | hx
      · have : x = foh := by
          simp only [heightsOf, List.mem_cons] at hx
          rcases hx with rfl | rfl | hx
          · rfl
          · rfl
          · simp [heightsOf] at hx
        rw [this]; exact ⟨hfoh1, hfoh2⟩
      · exact ihh x hx
      · have : x = foh := by
          simp only [heightsOf, List.mem_cons] at hx
          rcases hx with rfl | rfl | hx
          · rfl
          · rfl
          · simp [heightsOf] at hx
        rw [this]; exact ⟨hfoh1, hfoh2⟩
    · have hz1 : zsOf (p ++ [last, foh, objH, foh]) = ([0, foh] ++ (zsOf L ++ [last])) ++ [objH] := by
        rw [zsOf_append _ _ hpe, hpL, zsOf_append _ _ (by simp)]
        simp [zsOf]
      rw [hz1, List.dropLast_concat]
      have h0f : (0:ℚ) ≤ foh := by linarith
      simp only [List.cons_append, List.nil_append]
      rw [List.chain'_cons]
      exact ⟨h0f, hchain2⟩
  case neg =>
    set p : List ℚ := [0, foh] ++ L with hp
    set last := max foh (p.getD (p.length - 2) 0) with hlast
    obtain rfl : p ++ [last, foh, objH, foh] = P := Option.some.inj h
    have hpe : p.length % 2 = 0 := by
      rw [hp]
      simp only [List.length_append, List.length_cons, List.length_nil]
      omega
    have hzfle : zf ≤ last := by
      rcases Decidable.em (L = []) with rfl | hne
      · have hz : zf = foh := ihnil rfl
        rw [hz, hlast]
        exact le_max_left _ _
      · have hLlen : L.length ≥ 2 := by
          rcases L with _ | ⟨a, L'⟩
          · exact absurd rfl hne
          rcases L' with _ | ⟨b, L''⟩
          · simp at ihe
          · simp [List.length_cons]
        have hidx : p.length - 2 = L.length - 2 + 2 := by
          rw [hp]; simp only [List.length_append, List.length_cons, List.length_nil]; omega
        have : p.getD (p.length - 2) 0 = zf := by
          rw [hidx, hp, List.getD_append_right _ _ _ _ (by simp)]
          simp only [List.length_cons, List.length_nil]
          rw [show L.length - 2 + 2 - 2 = L.length - 2 by omega]
          exact ihlast hne
        rw [hlast, this]
        exact le_max_right _ _
    have hchain2 : List.Chain' (· ≤ ·) (foh :: (zsOf L ++ [last])) := by
      have hc0 : List.Chain' (· ≤ ·) ((foh :: zsOf L) ++ [zf]) := by simpa using ihch
      have := chain'_concat_mono hc0 hzfle
      simpa using this
    refine ⟨?_, ?_, ?_, ?_⟩
    · rw [hp]
      simp [List.getD_append, List.getD]
    · have hlen : (p ++ [last, foh, objH, foh]).length - 2 = p.length + 2 := by
        simp only [List.length_append, List.length_cons, List.length_nil]; omega
      rw [hlen, List.getD_append_right _ _ _ _ (by omega)]
      simp
    · intro x hx
      rw [heightsOf_append _ _ hpe, hp, heightsOf_append _ _ (by simp)] at hx
      simp only [List.mem_append] at hx
      rcases hx with (hx | hx) | hx
      · have : x = foh := by
          simp only [heightsOf, List.mem_cons] at hx
          rcases hx with rfl | hx
          · rfl
          · simp [heightsOf] at hx
        rw [this]; exact ⟨hfoh1, hfoh2⟩
      · exact ihh x hx
      · have : x = foh := by
          simp only [heightsOf, List.mem_cons] at hx
          rcases hx with rfl | rfl | hx
          · rfl
          · rfl
          · simp [heightsOf] at hx
        rw [this]; exact ⟨hfoh1, hfoh2⟩
    · have hz1 : zsOf (p ++ [last, foh, objH, foh]) = ([0] ++ (zsOf L ++ [last])) ++ [objH] := by
        rw [zsOf_append _ _ hpe, hp, zsOf_append _ _ (by simp)]
        simp [zsOf]
      rw [hz1, List.dropLast_concat]
      have h0f : (0:ℚ) ≤ foh := by linarith
      simp only [List.cons_append, List.nil_append]
      rw [List.chain'_cons']
      refine ⟨?_, (List.chain'_cons'.mp hchain2).2⟩
      intro y hy
      have := (List.chain'_cons'.mp hchain2).1 y hy
      linarith

/-- **C1** (counterexample): with `min_layer_height = 0.1` and an oracle
constantly returning `0.05`, the profile returned by
`layer_height_profile_adaptive` has a height entry `0.05` below
`min_layer_height − EPSILON` (the caller never clamps) and its Z entries
are not non-decreasing (the plateau steps down from `0.3` to the top
`Z = 0.2`), refuting the claimed §3 invariants. -/
theorem adaptive_profile_counterexample :
    layer_height_profile_adaptive paramsTiny oracleLow 10 = some adaptiveLowOut ∧
    ¬ List.Chain' (· ≤ ·) (zsOf adaptiveLowOut) ∧
    (1/20 : ℚ) ∈ heightsOf adaptiveLowOut ∧
    (1/20 : ℚ) < paramsTiny.min_layer_height - EPSILON := by
  refine ⟨by with_unfolding_all exact rfl, ?_, ?_, ?_⟩
  · intro hch
    have hz : zsOf adaptiveLowOut = [0, 1/5, 1/4, 1/4, 3/10, 3/10, 1/5] := rfl
    rw [hz] at hch
    norm_num [List.chain'_cons] at hch
  · have hh : heightsOf adaptiveLowOut = [1/5, 1/20, 1/20, 1/20, 1/20, 1/5, 1/5] := rfl
    rw [hh]
    simp
  · norm_num [paramsTiny, EPSILON]

/-- **C1** (witness): the amended invariants on a concrete adaptive run
with an oracle constantly returning `0.25`. -/
theorem adaptive_profile_amended_witness :
    adaptiveQOut.getD 0 0 = 0 ∧
    adaptiveQOut.getD (adaptiveQOut.length - 2) 0 = paramsTiny.object_print_z_height ∧
    (paramsTiny.min_layer_height ≤ (1/4 : ℚ) ∧ (1/4 : ℚ) ≤ paramsTiny.max_layer_height) ∧
    List.Chain' (· ≤ ·) ((zsOf adaptiveQOut).dropLast) := by
  obtain ⟨h1, h2, h3, h4⟩ := adaptive_profile_amended paramsTiny oracleQuarter 10 adaptiveQOut
    (by norm_num [paramsTiny])
    (by norm_num [paramsTiny])
    (by norm_num [paramsTiny])
    (fun j => by norm_num [paramsTiny, oracleQuarter])
    (by norm_num [paramsTiny])
    (by with_unfolding_all exact rfl)
  refine ⟨h1, h2, h3 (1/4) ?_, h4⟩
  have hh : heightsOf adaptiveQOut = [1/5, 1/4, 1/4, 1/4, 1/4, 1/5, 1/5] := rfl
  rw [hh]
  simp

/-- **C4 amended**: each height appended by the main loop of
`layer_height_profile_adaptive` equals `min (cusp, 999)` for the value
`cusp` returned by the corresponding oracle call — no clamping into
`[min_layer_height, max_layer_height]` is performed by the caller. -/
theorem adaptiveLoop_heights_min999 (objectH : ℚ) (oracle : ℕ → ℚ) (fuel k : ℕ)
    (slice_z height : ℚ) (out : List ℚ) (zfin : ℚ)
    (h : adaptiveLoop objectH oracle fuel k slice_z height = some (out, zfin)) :
    ∀ x ∈ heightsOf out, ∃ j, x = min (oracle j) 999 :=
  adaptiveLoop_heights objectH oracle fuel k slice_z height out zfin h

/-- **C4** (counterexample): with `min_layer_height = 0.1` and an oracle
returning `0.05`, the main loop appends the raw value `0.05`, which is
neither the clamped value `clamp min max 0.05 = 0.1` nor inside
`[min_layer_height, max_layer_height]` — the caller performs no clamping. -/
theorem adaptive_no_clamp_counterexample :
    adaptiveLoop paramsTiny.object_print_z_height oracleLow 10 0 (1/5) (1/5) =
      some ([1/5, 1/20, 1/4, 1/20, 1/4, 1/20, 3/10, 1/20], 3/10) ∧
    (1/20 : ℚ) ∈ heightsOf [1/5, 1/20, 1/4, 1/20, 1/4, 1/20, 3/10, 1/20] ∧
    (1/20 : ℚ) ≠ clamp paramsTiny.min_layer_height paramsTiny.max_layer_height
      (oracleLow 0) ∧
    (1/20 : ℚ) < paramsTiny.min_layer_height := by
  refine ⟨by with_unfolding_all exact rfl, ?_, ?_, ?_⟩
  · rw [show heightsOf [1/5, 1/20, 1/4, 1/20, 1/4, 1/20, 3/10, (1:ℚ)/20] =
        [1/20, 1/20, 1/20, 1/20] from rfl]
    simp
  · norm_num [clamp, paramsTiny, oracleLow]
  · norm_num [paramsTiny]

/-- **C4** (witness): a height appended by a concrete loop run equals
`min (oracle value) 999`. -/
theorem adaptiveLoop_heights_min999_witness : (1/4 : ℚ) = min ((1:ℚ)/4) 999 := by
  obtain ⟨j, hj⟩ := adaptiveLoop_heights_min999 (1/2) oracleQuarter 10 0 (1/5) (1/5)
    adaptiveQLoopOut (19/20) (by with_unfolding_all exact rfl) (1/4)
    (by rw [show heightsOf adaptiveQLoopOut =
          [1/4, 1/4, 1/4, 1/4, 1/4, 1/4] from rfl]; simp)
  exact hj

/-- **C6**: with nominal layer height `0.2`, no fixed first layer and
object height at least `5`, `layer_height_profile_from_ranges` on the
ranges `(1, 3, 0.1)` then `(2, 4, 0.25)` trims the second range to
`(3, 4, 0.25)`, and the resulting profile, linearly interpolated by the
profile sampler, yields `0.1, 0.1, 0.25` and the nominal `0.2` at
`z = 1.5, 2.5, 3.5, 4.5`. -/
theorem from_ranges_overlap_trim (params : SlicingParameters)
    (hl : params.layer_height = 1/5)
    (hf : params.first_object_layer_height_fixed = false)
    (hH : 5 ≤ params.object_print_z_height) :
    trim_ranges params [((1, 3), 1/10), ((2, 4), 1/4)] =
      [((1, 3), 1/10), ((3, 4), 1/4)] ∧
    sampleHeight params.layer_height
      (layer_height_profile_from_ranges params [((1, 3), 1/10), ((2, 4), 1/4)])
      (3/2) = 1/10 ∧
    sampleHeight params.layer_height
      (layer_height_profile_from_ranges params [((1, 3), 1/10), ((2, 4), 1/4)])
      (5/2) = 1/10 ∧
    sampleHeight params.layer_height
      (layer_height_profile_from_ranges params [((1, 3), 1/10), ((2, 4), 1/4)])
      (7/2) = 1/4 ∧
    sampleHeight params.layer_height
      (layer_height_profile_from_ranges params [((1, 3), 1/10), ((2, 4), 1/4)])
      (9/2) = 1/5 := by
  have h3 : min (3:ℚ) params.object_print_z_height = 3 := min_eq_left (by linarith)
  have h4 : min (4:ℚ) params.object_print_z_height = 4 := min_eq_left (by linarith)
  have htrim : trim_ranges params [((1, 3), 1/10), ((2, 4), 1/4)] =
      [((1, 3), 1/10), ((3, 4), 1/4)] := by
    unfold trim_ranges
    simp only [hf, Bool.false_eq_true, if_false, List.foldl_cons, List.foldl_nil]
    norm_num [h3, h4, EPSILON, List.getLast?]
  have hprof : layer_height_profile_from_ranges params [((1, 3), 1/10), ((2, 4), 1/4)] =
      [0, 1/5, 1, 1/5, 1, 1/10, 3, 1/10, 3, 1/4, 4, 1/4, 4, 1/5,
       params.object_print_z_height, 1/5] := by
    unfold layer_height_profile_from_ranges
    rw [htrim]
    unfold profile_of_trimmed
    simp only [hl, List.foldl_cons, List.foldl_nil]
    norm_num [EPSILON, List.getD]
    intro hc
    exact absurd hc (by linarith)
  rw [hprof, hl]
  refine ⟨htrim, ?_, ?_, ?_, ?_⟩
  · norm_num [sampleHeight, sampleLoop, List.getD, lerp]
  · norm_num [sampleHeight, sampleLoop, List.getD, lerp]
  · norm_num [sampleHeight, sampleLoop, List.getD, lerp]
  · have hgt : (9:ℚ)/2 < params.object_print_z_height := by linarith
    norm_num [sampleHeight, sampleLoop, List.getD, lerp, hgt]
    ring_nf

/-- **C6** (witness): the same at the concrete parameters with object
height `5`. -/
theorem from_ranges_overlap_trim_witness :
    trim_ranges paramsFive [((1, 3), 1/10), ((2, 4), 1/4)] =
      [((1, 3), 1/10), ((3, 4), 1/4)] ∧
    sampleHeight paramsFive.layer_height
      (layer_height_profile_from_ranges paramsFive [((1, 3), 1/10), ((2, 4), 1/4)])
      (3/2) = 1/10 ∧
    sampleHeight paramsFive.layer_height
      (layer_height_profile_from_ranges paramsFive [((1, 3), 1/10), ((2, 4), 1/4)])
      (5/2) = 1/10 ∧
    sampleHeight paramsFive.layer_height
      (layer_height_profile_from_ranges paramsFive [((1, 3), 1/10), ((2, 4), 1/4)])
      (7/2) = 1/4 ∧
    sampleHeight paramsFive.layer_height
      (layer_height_profile_from_ranges paramsFive [((1, 3), 1/10), ((2, 4), 1/4)])
      (9/2) = 1/5 :=
  from_ranges_overlap_trim paramsFive
    (by norm_num [paramsFive])
    (by with_unfolding_all exact rfl)
    (by norm_num [paramsFive, SlicingParameters.object_print_z_height])

/-- **C3** (amended): for a §3-valid profile (even length ≥ 4, first Z
`0`, last Z exactly `object_print_z_height`, heights strictly inside
`(min_layer_height − EPSILON, max_layer_height + EPSILON)`), any
terminating, in-bounds run of `adjust_layer_height_profile` preserves the
first and last Z entries and keeps every height entry strictly inside
`(min_layer_height − EPSILON, max_layer_height + EPSILON)`.  The strict
`[min_layer_height, max_layer_height]` bound of the claim holds only for
the freshly resampled entries (they are clamped); the untouched prefix and
suffix keep their original heights, which §3 bounds only by the
`EPSILON`-band. -/
theorem adjust_profile_amended (params : SlicingParameters) (cosf : ℚ → ℚ)
    (profile : List ℚ) (z layer_thickness_delta band_width : ℚ)
    (action : LayerHeightEditActionType) (fuel : ℕ) (p' : List ℚ)
    (hcos : ∀ x, |cosf x| ≤ 1)
    (hmnmx : params.min_layer_height ≤ params.max_layer_height)
    (hEH : EPSILON < params.object_print_z_height)
    (hplen : 4 ≤ profile.length)
    (hpe : profile.length % 2 = 0)
    (hz0 : profile.getD 0 0 = 0)
    (hzlast : profile.getD (profile.length - 2) 0 = params.object_print_z_height)
    (hh : heightsWithin (params.min_layer_height - EPSILON)
      (params.max_layer_height + EPSILON) profile)
    (hres : adjust_layer_height_profile params cosf profile z
      layer_thickness_delta band_width action fuel = some p') :
    p'.getD 0 0 = 0 ∧
    p'.getD (p'.length - 2) 0 = params.object_print_z_height ∧
    heightsWithin (params.min_layer_height - EPSILON)
      (params.max_layer_height + EPSILON) p' := by
  have hEP : (0:ℚ) < EPSILON := by norm_num [EPSILON]
  unfold adjust_layer_height_profile at hres
  dsimp only at hres
  set zlo := (if params.first_object_layer_height_fixed then
    params.first_object_layer_height else 0) with hzlo
  by_cases hwin : z < zlo ∨ z > params.object_print_z_height
  · rw [if_pos hwin] at hres
    obtain rfl := Option.some.inj hres
    exact ⟨hz0, hzlast, hh⟩
  rw [if_neg hwin] at hres
  push_neg at hwin
  rcases hcd : clampDelta params action layer_thickness_delta
      (sampleHeight params.layer_height profile z) with _ | δ
  · rw [hcd] at hres
    dsimp only at hres
    obtain rfl := Option.some.inj hres
    exact ⟨hz0, hzlast, hh⟩
  rw [hcd] at hres
  dsimp only at hres
  set L0 := max zlo (z - 1/2 * band_width) with hL0
  set idx0 := seekLoop profile L0 (profile.length + 1) 0 with hidx0
  obtain ⟨hs1, hs2, hs3, hs4⟩ := seekLoop_facts profile L0 hpe
    (profile.length + 1) 0 rfl (by omega)
  rw [← hidx0] at hs1 hs2 hs3 hs4
  by_cases hu : idx0 < 2
  · rw [if_pos hu] at hres
    exact absurd hres (by simp)
  rw [if_neg hu] at hres
  rcases hrl : resampleLoop params cosf action δ z band_width
      (z + 1/2 * band_width) params.object_print_z_height profile fuel L0
      (idx0 - 2) (profile.take (idx0 - 2 + 2)) with _ | ⟨acc, idxA⟩
  · rw [hrl] at hres
    exact absurd hres (by simp)
  rw [hrl] at hres
  dsimp only at hres
  -- invariants of the copied prefix
  have hpreLen : (profile.take (idx0 - 2 + 2)).length = idx0 := by
    rw [List.length_take]
    omega
  have hpre0 : (profile.take (idx0 - 2 + 2)).getD 0 0 = 0 := by
    rw [getD_take_lt _ _ _ (by omega)]
    exact hz0
  have hpreh : heightsWithin (params.min_layer_height - EPSILON)
      (params.max_layer_height + EPSILON) (profile.take (idx0 - 2 + 2)) := by
    intro x hx
    exact hh x (heightsOf_take_subset _ _ (by omega) x hx)
  -- the initial cursor either fits, or the band lies entirely above the profile
  have hinit : idx0 - 2 + 4 ≤ profile.length ∨
      (¬ L0 < z + 1/2 * band_width ∧ idx0 - 2 + 2 ≤ profile.length) := by
    rcases Nat.lt_or_ge idx0 (profile.length - 1) with hlt | hge
    · left
      omega
    · -- idx0 = profile.length, so profile[len-2] < L0, i.e. the top z < L0
      have hidx0len : idx0 = profile.length := by omega
      have htop : profile.getD (profile.length - 2) 0 < L0 := by
        by_contra hc
        have := hs4 hc (by omega) (by omega)
        omega
      rw [hzlast] at htop
      right
      refine ⟨?_, by omega⟩
      -- L0 = z - band/2 > objH ≥ z forces band < 0, hence hi < z ≤ objH < L0
      rcases max_cases zlo (z - 1/2 * band_width) with ⟨hm, _⟩ | ⟨hm, _⟩
      · rw [hL0, hm] at htop
        rcases hwin with ⟨hw1, hw2⟩
        linarith
      · rw [hL0, hm] at htop ⊢
        rcases hwin with ⟨hw1, hw2⟩
        intro hc
        linarith
  obtain ⟨⟨hA2, hAe, hA0, hAh, hAeven⟩, hd⟩ := resampleLoop_inv params cosf action
    δ z band_width (z + 1/2 * band_width) profile hmnmx hEH hpe hzlast fuel
    L0 (idx0 - 2) (profile.take (idx0 - 2 + 2)) acc idxA hrl
    (by omega) (by omega) (by rw [hpreLen]; omega) hpre0 hpreh hinit
  -- now the three shapes of the final profile
  rcases hd with ⟨hlenA, hlastA⟩ | hmid | ⟨hacc, hidxA⟩
  · -- break path: the suffix tests both fail, p1 = acc
    rw [if_neg (by omega : ¬ idxA + 2 < profile.length)] at hres
    rw [if_neg (show ¬ (acc.getD (acc.length - 2) 0 + EPSILON / 2 <
      params.object_print_z_height) by rw [hlastA]; linarith)] at hres
    exact adjust_finish cosf z band_width action _ _ acc p' _ _ _ hcos
      (Option.some.inj hres)
      (by rw [hpreLen]; omega) (by rw [hpreLen]; omega) hAe hA2 hA0 hlastA hAh
      (Or.inl rfl)
  · -- normal path with the cursor strictly inside: append the suffix
    rw [if_pos (by omega : idxA + 2 < profile.length)] at hres
    have hsuffLen : (profile.drop (idxA + 2)).length = profile.length - (idxA + 2) := by
      simp
    have hp1e : (acc ++ profile.drop (idxA + 2)).length % 2 = 0 := by
      simp only [List.length_append, hsuffLen]
      omega
    have hp1len : 2 ≤ (acc ++ profile.drop (idxA + 2)).length := by
      simp only [List.length_append, hsuffLen]
      omega
    have hp10 : (acc ++ profile.drop (idxA + 2)).getD 0 0 = 0 := by
      rw [List.getD_append _ _ _ _ (by omega)]
      exact hA0
    have hp1last : (acc ++ profile.drop (idxA + 2)).getD
        ((acc ++ profile.drop (idxA + 2)).length - 2) 0 =
        params.object_print_z_height := by
      simp only [List.length_append, hsuffLen]
      rw [List.getD_append_right _ _ _ _ (by omega)]
      rw [getD_drop]
      rw [show idxA + 2 + (acc.length + (profile.length - (idxA + 2)) - 2 -
        acc.length) = profile.length - 2 by omega]
      exact hzlast
    have hp1h : heightsWithin (params.min_layer_height - EPSILON)
        (params.max_layer_height + EPSILON) (acc ++ profile.drop (idxA + 2)) := by
      intro x hx
      rw [heightsOf_append _ _ hAe] at hx
      rcases List.mem_append.mp hx with hx | hx
      · exact hAh x hx
      · exact hh x (heightsOf_drop_subset _ _ (by omega) hpe x hx)
    exact adjust_finish cosf z band_width action _ _ _ p' _ _ _ hcos
      (Option.some.inj hres)
      (by rw [hpreLen]; omega) (by rw [hpreLen]; omega) hp1e hp1len hp10 hp1last
      hp1h (Or.inr (by simp only [List.length_append, hsuffLen]; omega))
  · -- the loop never ran: acc is the prefix, p1 = profile
    subst hacc
    subst hidxA
    by_cases hc2 : idx0 - 2 + 2 < profile.length
    · rw [if_pos hc2] at hres
      have hjoin : profile.take (idx0 - 2 + 2) ++ profile.drop (idx0 - 2 + 2) =
          profile := List.take_append_drop _ _
      rw [hjoin] at hres
      exact adjust_finish cosf z band_width action _ _ _ p' _ _ _ hcos
        (Option.some.inj hres)
        (by rw [hpreLen]; omega) (by rw [hpreLen]; omega) hpe (by omega) hz0
        hzlast hh (Or.inr (by rw [hpreLen]; omega))
    · rw [if_neg hc2] at hres
      have htake : profile.take (idx0 - 2 + 2) = profile := by
        apply List.take_of_length_le
        omega
      rw [htake] at hres
      rw [if_neg (show ¬ (profile.getD (profile.length - 2) 0 + EPSILON / 2 <
        params.object_print_z_height) by rw [hzlast]; linarith)] at hres
      exact adjust_finish cosf z band_width action _ _ _ p' _ _ _ hcos
        (Option.some.inj hres)
        (by omega) (by omega) hpe (by omega) hz0
        hzlast hh (Or.inl rfl)

/-- **C3** (counterexample): a valid profile with constant height
`0.099995` — inside the §3 band `(0.1 − 0.0001, 0.3 + 0.0001)` but below
`min_layer_height = 0.1` — keeps that out-of-`[min, max]` height in the
untouched prefix after an `Increase` edit near the top, refuting the
claimed `[min_layer_height, max_layer_height]` bound on the result. -/
theorem adjust_profile_counterexample :
    adjust_layer_height_profile paramsPlain cos1 thinProfile (49/5) (1/20) (2/5)
      .Increase 50 = some adjustThinOut ∧
    paramsPlain.min_layer_height - EPSILON < (19999/200000 : ℚ) ∧
    (19999/200000 : ℚ) ∈ heightsOf adjustThinOut ∧
    (19999/200000 : ℚ) < paramsPlain.min_layer_height := by
  refine ⟨by with_unfolding_all exact rfl, by norm_num [paramsPlain, EPSILON], ?_,
    by norm_num [paramsPlain]⟩
  rw [show heightsOf adjustThinOut = [19999/200000, 1/10, 29999/200000,
    29999/200000, 29999/200000, 19999/200000] from rfl]
  simp

/-- **C3** (witness): the amended post-conditions on a concrete
`Increase` edit of the flat profile. -/
theorem adjust_profile_amended_witness :
    List.getD adjustFlatOut 0 0 = 0 ∧
    List.getD adjustFlatOut (adjustFlatOut.length - 2) 0 =
      paramsPlain.object_print_z_height ∧
    heightsWithin (paramsPlain.min_layer_height - EPSILON)
      (paramsPlain.max_layer_height + EPSILON) adjustFlatOut :=
  adjust_profile_amended paramsPlain cos1 flatProfile 5 (1/20) (1/10)
    .Increase 50 adjustFlatOut
    (fun x => by norm_num [cos1])
    (by norm_num [paramsPlain])
    (by norm_num [paramsPlain, SlicingParameters.object_print_z_height, EPSILON])
    (by norm_num [flatProfile])
    (by norm_num [flatProfile])
    (by norm_num [flatProfile])
    (by norm_num [flatProfile, paramsPlain, SlicingParameters.object_print_z_height])
    (by
      intro x hx
      rw [show heightsOf flatProfile = [1/5, 1/5] from rfl] at hx
      rcases List.mem_cons.mp hx with rfl | hx
      · norm_num [paramsPlain, EPSILON]
      · rcases List.mem_cons.mp hx with rfl | hx
        · norm_num [paramsPlain, EPSILON]
        · simp at hx)
    (by with_unfolding_all exact rfl)

end Slic3r
